import Mathlib

/-!
Shallow embedding of the synthetic-data generation engine of
`react-19-dataviz-prototype` (`src/utils/cart.ts` and the Pearson-correlation
helper of `src/pages/SyntheticData.tsx`), together with proofs settling the
frozen specification claims.

Modelling conventions:
* JavaScript numbers (values and `Date.getTime()` timestamps) are modelled as
  real numbers.  `null` / `undefined` / `NaN` numeric payloads are not
  representable, so the `isNaN`-style guards of the source are vacuously true
  in the model; the `Math.abs(value) < Number.MAX_SAFE_INTEGER` guard of
  `isValidNumber` is kept, and it is the reachable way for a value to be
  "invalid".
* `Math.random()` and the draws of `d3.randomNormal` are modelled by two
  oracle streams `unif nrm : ℕ → ℝ`, consumed by explicit index threading.
  The Box–Muller transform applied to `Math.random()` draws is embedded
  literally via `Real.sqrt`, `Real.log`, `Real.cos`.
* `new Date()` (current time) is an explicit parameter `now : ℝ`.
* JS `Infinity` scores are modelled by `(⊤ : WithTop ℝ)`.
* A thrown JS exception is modelled by `Except.error`.
-/

noncomputable section

namespace Cart

/-- One record of the data set: `DataPoint` of `src/types` with the `Date`
field modelled by its millisecond timestamp. -/
structure DataPoint where
  date : ℝ
  value : ℝ
  category : String
deriving DecidableEq

/-- JS `x || d` on an optional number: `undefined` and `0` are falsy. -/
def jsOrNum (x : Option ℝ) (d : ℝ) : ℝ :=
  match x with
  | none => d
  | some v => if v = 0 then d else v

/-- Insert into a sorted list, used to model JS `sort((a, b) => a - b)`. -/
def sortedInsert [LinearOrder α] (x : α) : List α → List α
  | [] => [x]
  | y :: ys => if x ≤ y then x :: y :: ys else y :: sortedInsert x ys

/-- Ascending sort (insertion sort), modelling JS array `sort`. -/
def sortAsc [LinearOrder α] (l : List α) : List α := l.foldr sortedInsert []

/-- Minimum of a list (`d3.min`); `0` stands for `undefined` on `[]`
(only used under nonemptiness guards). -/
def listMin : List ℝ → ℝ
  | [] => 0
  | x :: xs => xs.foldl min x

/-- Maximum of a list (`d3.max`); `0` stands for `undefined` on `[]`. -/
def listMax : List ℝ → ℝ
  | [] => 0
  | x :: xs => xs.foldl max x

/-- `d3.mean`: arithmetic mean, `undefined` on the empty list. -/
def d3mean (l : List ℝ) : Option ℝ :=
  if l = [] then none else some (l.sum / (l.length : ℝ))

/-- `d3.variance`: sample variance (denominator `n - 1`), `undefined` for
fewer than two values. -/
def d3variance (l : List ℝ) : Option ℝ :=
  if l.length < 2 then none
  else some (((l.map (fun v => (v - l.sum / (l.length : ℝ)) ^ 2)).sum) /
    ((l.length : ℝ) - 1))

/-- `d3.deviation`: square root of the sample variance. -/
def d3deviation (l : List ℝ) : Option ℝ := (d3variance l).map Real.sqrt

/-- `d3.quantile` with linear interpolation between order statistics:
`undefined` on `[]`; the minimum for `p ≤ 0` or singleton lists; the maximum
for `p ≥ 1`; otherwise `sorted[⌊i⌋] + (sorted[⌊i⌋+1] - sorted[⌊i⌋])·(i - ⌊i⌋)`
with `i = p·(n-1)`. -/
def d3quantile (l : List ℝ) (p : ℝ) : Option ℝ :=
  if l = [] then none
  else if p ≤ 0 ∨ l.length < 2 then some (listMin l)
  else if 1 ≤ p then some (listMax l)
  else
    let s := sortAsc l
    let i : ℝ := p * ((l.length : ℝ) - 1)
    let i0 : ℕ := ⌊i⌋.toNat
    let v0 := s.getD i0 0
    let v1 := s.getD (i0 + 1) 0
    some (v0 + (v1 - v0) * (i - (i0 : ℝ)))

/-- `d3.median = d3.quantile _ 0.5`. -/
def d3median (l : List ℝ) : Option ℝ := d3quantile l (1 / 2)

/-- `Number.MAX_SAFE_INTEGER`. -/
def maxSafeInteger : ℝ := 9007199254740991

/-- `isValidNumber` (cart.ts:55): the `NaN`/finiteness checks are vacuous in
the real-number model; the magnitude bound is kept. -/
def isValidNumber (v : ℝ) : Bool := decide (|v| < maxSafeInteger)

/-- `handleMissingValues` (cart.ts:67): with no representable `null`/`NaN`
values, every value passes the validity filter used there, so both branches
return the data unchanged. -/
def handleMissingValues (data : List DataPoint) : List DataPoint := data

/-- First-occurrence deduplication, modelling `Array.from(new Set(...))`. -/
def dedupFirst (l : List String) : List String :=
  l.foldl (fun acc c => if c ∈ acc then acc else acc ++ [c]) []

/-- `findQuantiles` (cart.ts:47): index-based quartiles
`sorted[⌊n·0.25⌋]`, `sorted[⌊n·0.75⌋]`. -/
def findQuantiles (values : List ℝ) : ℝ × ℝ :=
  let sorted := sortAsc values
  let q1Index : ℕ := ⌊(values.length : ℝ) * (1 / 4)⌋.toNat
  let q3Index : ℕ := ⌊(values.length : ℝ) * (3 / 4)⌋.toNat
  (sorted.getD q1Index 0, sorted.getD q3Index 0)

/-- `calculateGiniImpurity` (cart.ts:21). -/
def calculateGiniImpurity (data : List DataPoint) : ℝ :=
  let categories := dedupFirst (data.map (·.category))
  let total := data.length
  1 - (categories.map (fun c =>
    let p := ((data.filter (fun d => decide (d.category = c))).length : ℝ) / (total : ℝ)
    p * p)).sum

/-- `calculateMSE` (cart.ts:37): population MSE of the valid values. -/
def calculateMSE (data : List DataPoint) : ℝ :=
  let validValues := (data.map (·.value)).filter isValidNumber
  if validValues = [] then 0
  else
    let mean := jsOrNum (d3mean validValues) 0
    ((validValues.map (fun v => (v - mean) ^ 2)).sum) / (validValues.length : ℝ)

/-- Numeric split features (`"date" | "value"`). -/
inductive NumFeature where
  | date
  | value
deriving DecidableEq

/-- The numeric coordinate read from a record for a numeric feature
(`d.date.getTime()` or `d.value`). -/
def numFeatureVal (f : NumFeature) (d : DataPoint) : ℝ :=
  match f with
  | .date => d.date
  | .value => d.value

/-- `findBestNumericalSplit` (cart.ts:99): quantile-derived candidate
thresholds scored by record-count-weighted MSE computed from running sums;
returns `(threshold, score)` with `⊤` for an unset (`Infinity`) score. -/
def findBestNumericalSplit (data : List DataPoint) (feature : NumFeature) :
    ℝ × WithTop ℝ :=
  let cleanData :=
    match feature with
    | .value => handleMissingValues data
    | .date => data.filter (fun _ => true)
  if cleanData = [] then (0, ⊤)
  else
    let values := (cleanData.map (numFeatureVal feature)).filter isValidNumber
    if values.length < 2 then (0, ⊤)
    else
      let q := findQuantiles values
      let iqr := q.2 - q.1
      let candidateThresholds : List ℝ :=
        [q.1 - (3 / 2) * iqr, q.1, q.1 + (q.2 - q.1) / 3,
          q.1 + (2 * (q.2 - q.1)) / 3, q.2, q.2 + (3 / 2) * iqr]
      let total := data.length
      let totalSum := (data.map (·.value)).sum
      let totalSqSum := (data.map (fun d => d.value * d.value)).sum
      candidateThresholds.foldl (fun best threshold =>
        let leftList := data.filter (fun d => decide (numFeatureVal feature d ≤ threshold))
        let leftCount := leftList.length
        let leftSum := (leftList.map (·.value)).sum
        let leftSqSum := (leftList.map (fun d => d.value * d.value)).sum
        let rightCount := total - leftCount
        if leftCount = 0 ∨ rightCount = 0 then best
        else
          let rightSum := totalSum - leftSum
          let rightSqSum := totalSqSum - leftSqSum
          let leftMean := leftSum / (leftCount : ℝ)
          let rightMean := rightSum / (rightCount : ℝ)
          let leftMSE := leftSqSum / (leftCount : ℝ) - leftMean * leftMean
          let rightMSE := rightSqSum / (rightCount : ℝ) - rightMean * rightMean
          let score : ℝ := ((leftCount : ℝ) * leftMSE + (rightCount : ℝ) * rightMSE) / (total : ℝ)
          if (score : WithTop ℝ) < best.2 then (threshold, (score : WithTop ℝ)) else best)
        (candidateThresholds.getD 0 0, (⊤ : WithTop ℝ))

/-- `findBestCategoricalSplit` (cart.ts:186): one-vs-rest split per distinct
category (categories iterated in sorted order); the per-category `Map`
aggregates of the source are modelled extensionally as functions of the
category. -/
def findBestCategoricalSplit (data : List DataPoint) : String × WithTop ℝ :=
  let catCount := fun c => ((data.filter (fun d => decide (d.category = c))).length : ℕ)
  let catSum := fun c => (((data.filter (fun d => decide (d.category = c))).map (·.value)).sum : ℝ)
  let catSqSum := fun c =>
    (((data.filter (fun d => decide (d.category = c))).map (fun d => d.value * d.value)).sum : ℝ)
  let categories := sortAsc (dedupFirst (data.map (·.category)))
  let total := data.length
  let totalSum := (categories.map catSum).sum
  let totalSqSum := (categories.map catSqSum).sum
  categories.foldl (fun best category =>
    let leftCount := catCount category
    let rightCount := total - leftCount
    if leftCount = 0 ∨ rightCount = 0 then best
    else
      let leftSum := catSum category
      let leftSqSum := catSqSum category
      let rightSum := totalSum - leftSum
      let rightSqSum := totalSqSum - leftSqSum
      let leftMean := leftSum / (leftCount : ℝ)
      let rightMean := rightSum / (rightCount : ℝ)
      let leftMSE := leftSqSum / (leftCount : ℝ) - leftMean * leftMean
      let rightMSE := rightSqSum / (rightCount : ℝ) - rightMean * rightMean
      let score : ℝ := ((leftCount : ℝ) * leftMSE + (rightCount : ℝ) * rightMSE) / (total : ℝ)
      if (score : WithTop ℝ) < best.2 then (category, (score : WithTop ℝ)) else best)
    (categories.getD 0 "", (⊤ : WithTop ℝ))

/-- One day in milliseconds (`24 * 60 * 60 * 1000`). -/
def dayMs : ℝ := 24 * 60 * 60 * 1000

/-- The `value` payload of a tree node (cart.ts:7).  The source stores the
categories comma-joined in a single string and splits it back on `","`; it is
modelled directly as the list of distinct categories.  `categoryFrequencies`
keeps the `Map`'s insertion order as an association list. -/
structure LeafValue where
  category : List String
  categoryFrequencies : List (String × ℝ)
  meanValue : ℝ
  stdValue : ℝ
  dateRange : ℝ × ℝ

/-- Split features (`"category" | "date" | "value"`). -/
inductive Feature where
  | date
  | value
  | category
deriving DecidableEq

/-- A split threshold: a number (date timestamp or value) or a string. -/
inductive JsVal where
  | num (x : ℝ)
  | str (s : String)

/-- JS `threshold as number`; the string case would be coerced by JS and is
unreachable for the numeric features produced by the builder. -/
def JsVal.toNum : JsVal → ℝ
  | .num x => x
  | .str _ => 0

/-- JS `threshold as string`; the numeric case is unreachable for the
category feature produced by the builder. -/
def JsVal.toStr : JsVal → String
  | .num _ => ""
  | .str s => s

/-- `TreeNode` (cart.ts:4).  The builder and pruner only ever produce nodes
with either no children or both children, and only internal nodes carry
`feature`/`threshold` they still use, so the optional fields of the source
interface are modelled as two constructors.  `value`, `impurity`, `samples`
stay optional as in the source. -/
inductive TreeNode where
  | leaf (value : Option LeafValue) (impurity : Option ℝ) (samples : Option ℕ)
  | internal (feature : Feature) (threshold : JsVal) (value : Option LeafValue)
      (impurity : Option ℝ) (samples : Option ℕ) (left right : TreeNode)

/-- The `value` field of a node. -/
def TreeNode.valueOf : TreeNode → Option LeafValue
  | .leaf v _ _ => v
  | .internal _ _ v _ _ _ _ => v

/-- `node.impurity || 0` of the source. -/
def TreeNode.impurityD : TreeNode → ℝ
  | .leaf _ i _ => i.getD 0
  | .internal _ _ _ i _ _ _ => i.getD 0

/-- `node.samples || 0` of the source. -/
def TreeNode.samplesD : TreeNode → ℕ
  | .leaf _ _ s => s.getD 0
  | .internal _ _ _ _ s _ _ => s.getD 0

/-- `createLeafNode` (cart.ts:350): summary statistics of the covered
records.  `cleanData = handleMissingValues data = data` in the model; all
dates are valid `Date`s, so `dates = data.map date`. -/
def createLeafNode (now : ℝ) (data : List DataPoint) : TreeNode :=
  let cleanData := handleMissingValues data
  let values := (cleanData.map (·.value)).filter isValidNumber
  let dates := cleanData.map (·.date)
  let categories := dedupFirst (cleanData.map (·.category))
  let stats : ℝ × ℝ × (ℝ × ℝ) :=
    if values ≠ [] then
      (jsOrNum (d3median values) 0,
        max (jsOrNum (d3deviation values) 1)
          (if 1 < values.length then
            ((d3quantile values (3 / 4)).getD 0 - (d3quantile values (1 / 4)).getD 0) / (1349 / 1000)
          else 1),
        if dates ≠ [] then (listMin dates, listMax dates) else (now, now + dayMs))
    else (0, 1, (now, now + dayMs))
  let smoothingFactor : ℝ := 1 / 10
  let totalCount : ℝ := (cleanData.length : ℝ) + smoothingFactor * (categories.length : ℝ)
  let categoryFrequencies := categories.map (fun cat =>
    (cat, (((cleanData.filter (fun d => decide (d.category = cat))).length : ℝ) + smoothingFactor)
      / totalCount))
  .leaf
    (some ⟨categories, categoryFrequencies, stats.1, stats.2.1, stats.2.2⟩)
    (some (if values ≠ [] then calculateMSE cleanData else 0))
    (some cleanData.length)

/-- `pruneTree` (cart.ts:240): bottom-up cost-complexity pruning.  The JS
`delete node.left/right` keeps the (now unused) `feature`/`threshold`
fields; the collapsed node is modelled as a leaf. -/
def pruneTree (node : TreeNode) (alpha : ℝ) : TreeNode :=
  match node with
  | .leaf v i s => .leaf v i s
  | .internal f th v i s l r =>
    let pl := pruneTree l alpha
    let pr := pruneTree r alpha
    let leafCost := i.getD 0 * ((s.getD 0 : ℕ) : ℝ)
    let subtreeCost := pl.impurityD * (pl.samplesD : ℝ) + pr.impurityD * (pr.samplesD : ℝ)
      + alpha * 2
    if leafCost ≤ subtreeCost then .leaf v i s
    else .internal f th v i s pl pr

/-- `targetFeature` argument of `buildDecisionTree`. -/
inductive TargetFeature where
  | all
  | date
  | value
  | category
deriving DecidableEq

/-- The chosen best split: feature, threshold, score. -/
structure SplitChoice where
  feature : Feature
  threshold : JsVal
  score : WithTop ℝ

/-- The `bestSplit` selection chain of `buildDecisionTree` (cart.ts:278-294):
date split, then value split if strictly better, then categorical split if
strictly better.  Every `targetFeature` enables at least one branch, so the
result is always `some`. -/
def chooseBestSplit (data : List DataPoint) (tf : TargetFeature) : Option SplitChoice :=
  let bs1 : Option SplitChoice :=
    if tf = .all ∨ tf = .date then
      let ds := findBestNumericalSplit data .date
      some ⟨.date, .num ds.1, ds.2⟩
    else none
  let bs2 : Option SplitChoice :=
    if tf = .all ∨ tf = .value then
      let vs := findBestNumericalSplit data .value
      match bs1 with
      | none => some ⟨.value, .num vs.1, vs.2⟩
      | some b => if vs.2 < b.score then some ⟨.value, .num vs.1, vs.2⟩ else some b
    else bs1
  if tf = .all ∨ tf = .category then
    let cs := findBestCategoricalSplit data
    match bs2 with
    | none => some ⟨.category, .str cs.1, cs.2⟩
    | some b => if cs.2 < b.score then some ⟨.category, .str cs.1, cs.2⟩ else some b
  else bs2

/-- `leftData` of `buildDecisionTree` (cart.ts:300-312). -/
def splitLeftData (data : List DataPoint) (bs : Option SplitChoice) : List DataPoint :=
  match bs with
  | some ⟨.category, th, _⟩ => data.filter (fun d => decide (d.category = th.toStr))
  | _ =>
    let threshold := (bs.map (fun b => b.threshold.toNum)).getD 0
    if bs.map (·.feature) = some .date then
      data.filter (fun d => decide (d.date ≤ threshold))
    else
      data.filter (fun d => decide (d.value ≤ threshold))

/-- `rightData` of `buildDecisionTree` (cart.ts:300-312). -/
def splitRightData (data : List DataPoint) (bs : Option SplitChoice) : List DataPoint :=
  match bs with
  | some ⟨.category, th, _⟩ => data.filter (fun d => decide (¬d.category = th.toStr))
  | _ =>
    let threshold := (bs.map (fun b => b.threshold.toNum)).getD 0
    if bs.map (·.feature) = some .date then
      data.filter (fun d => decide (threshold < d.date))
    else
      data.filter (fun d => decide (threshold < d.value))

/-- `(bestSplit?.score ?? 0)` of cart.ts:318. -/
def scoreD (bs : Option SplitChoice) : WithTop ℝ :=
  (bs.map SplitChoice.score).getD ((0 : ℝ) : WithTop ℝ)

/-- The two partitions of a split cover the data exactly: their lengths sum
to the data's length. -/
theorem splitData_length (data : List DataPoint) (bs : Option SplitChoice) :
    data.length = (splitLeftData data bs).length + (splitRightData data bs).length := by
  have key : ∀ (p : DataPoint → Bool),
      data.length = (data.filter p).length + (data.filter (fun d => !(p d))).length := by
    intro p
    simpa using @List.length_eq_length_filter_add DataPoint data p
  have hb : ∀ (a t : ℝ), (!(decide (a ≤ t))) = decide (t < a) := by
    intro a t
    rw [← decide_not]
    exact decide_eq_decide.mpr not_le
  have hnum : ∀ (f : DataPoint → ℝ) (t : ℝ),
      data.length = (data.filter (fun d => decide (f d ≤ t))).length +
        (data.filter (fun d => decide (t < f d))).length := by
    intro f t
    have := key (fun d => decide (f d ≤ t))
    simpa only [hb] using this
  match bs with
  | none => exact hnum (·.value) 0
  | some ⟨.date, th, sc⟩ =>
    simpa [splitLeftData, splitRightData] using hnum (·.date) th.toNum
  | some ⟨.value, th, sc⟩ =>
    simpa [splitLeftData, splitRightData] using hnum (·.value) th.toNum
  | some ⟨.category, th, sc⟩ =>
    have := key (fun d => decide (d.category = th.toStr))
    simpa [splitLeftData, splitRightData] using this

/-- `buildDecisionTree` (cart.ts:263): recursive CART builder.  Stopping
rules: depth equal to `maxDepth` or too few records; no-improvement rule: an
empty partition or best score not strictly below the leaf impurity.  The
built internal node is immediately pruned.  The `none` case of `bestSplit`
is unreachable (`chooseBestSplit` always returns `some`). -/
def buildDecisionTree (now : ℝ) (data : List DataPoint) (depth maxDepth minSamplesSplit : ℕ)
    (alpha : ℝ) (tf : TargetFeature) : TreeNode :=
  let leafNode := createLeafNode now data
  if depth = maxDepth ∨ data.length < minSamplesSplit then leafNode
  else
    let bestSplit := chooseBestSplit data tf
    let leftData := splitLeftData data bestSplit
    let rightData := splitRightData data bestSplit
    if h : leftData.length = 0 ∨ rightData.length = 0 ∨
        ((leafNode.impurityD : ℝ) : WithTop ℝ) ≤ scoreD bestSplit then
      leafNode
    else
      match bestSplit with
      | none => leafNode
      | some b =>
        pruneTree
          (.internal b.feature b.threshold leafNode.valueOf
            (some (b.score.untop' 0)) (some data.length)
            (buildDecisionTree now leftData (depth + 1) maxDepth minSamplesSplit alpha tf)
            (buildDecisionTree now rightData (depth + 1) maxDepth minSamplesSplit alpha tf))
          alpha
termination_by data.length
decreasing_by
  · have hsum := splitData_length data (chooseBestSplit data tf)
    have h1 : ¬(splitLeftData data (chooseBestSplit data tf)).length = 0 :=
      fun hc => h (Or.inl hc)
    have h2 : ¬(splitRightData data (chooseBestSplit data tf)).length = 0 :=
      fun hc => h (Or.inr (Or.inl hc))
    omega
  · have hsum := splitData_length data (chooseBestSplit data tf)
    have h1 : ¬(splitLeftData data (chooseBestSplit data tf)).length = 0 :=
      fun hc => h (Or.inl hc)
    have h2 : ¬(splitRightData data (chooseBestSplit data tf)).length = 0 :=
      fun hc => h (Or.inr (Or.inl hc))
    omega

/-- The cumulative-probability category selection loop of
`generateFeatureValue` (cart.ts:446-456): walk the frequency table, keeping
the default until `rand ≤ cumProb` first holds (the `break`). -/
def pickCategory (rand : ℝ) : List (String × ℝ) → ℝ → String → String
  | [], _, sel => sel
  | (cat, freq) :: rest, cumProb, sel =>
    if rand ≤ cumProb + freq then cat else pickCategory rand rest (cumProb + freq) sel

/-- `generateFeatureValue` (cart.ts:409): one root-to-leaf traversal emitting
a record.  `unif` is the `Math.random()` stream (consumed at index `k`),
`nrm` the standard-normal stream behind `d3.randomNormal` (index `j`); the
result carries the next unconsumed indices.  The `throw` on a node without
`value` statistics is `Except.error`. -/
def generateFeatureValue (unif nrm : ℕ → ℝ) :
    TreeNode → ℕ → ℕ → Except String (DataPoint × ℕ × ℕ)
  | .leaf none _ _, _, _ => .error "Node missing value statistics"
  | .internal _ _ none _ _ _ _, _, _ => .error "Node missing value statistics"
  | .leaf (some v) _ _, k, j =>
    let date := v.dateRange.1 + unif k * (v.dateRange.2 - v.dateRange.1)
    let vk : ℝ × ℕ :=
      if v.meanValue ≠ 0 ∨ v.stdValue ≠ 1 then
        let u := unif (k + 1)
        let z := Real.sqrt (-2 * Real.log u) * Real.cos (2 * Real.pi * unif (k + 2))
        let raw := v.meanValue + v.stdValue * z
        let minValue := v.meanValue - 3 * v.stdValue
        let maxValue := v.meanValue + 3 * v.stdValue
        (max minValue (min maxValue raw), k + 3)
      else
        (unif (k + 1) * 100, k + 2)
    let rand := unif vk.2
    let selectedCategory := pickCategory rand v.categoryFrequencies 0 (v.category.headD "")
    .ok (⟨date, vk.1, selectedCategory⟩, vk.2 + 1, j)
  | .internal f th (some v) _ _ l r, k, j =>
    match f with
    | .date =>
      let currentTime := v.dateRange.1 + unif k * (v.dateRange.2 - v.dateRange.1)
      if currentTime ≤ th.toNum then generateFeatureValue unif nrm l (k + 1) j
      else generateFeatureValue unif nrm r (k + 1) j
    | .value =>
      let currentValue := v.meanValue + v.stdValue * nrm j
      if currentValue ≤ th.toNum then generateFeatureValue unif nrm l k (j + 1)
      else generateFeatureValue unif nrm r k (j + 1)
    | .category =>
      let currentCategory := v.category.getD (⌊unif k * (v.category.length : ℝ)⌋.toNat) ""
      if currentCategory = th.toStr then generateFeatureValue unif nrm l (k + 1) j
      else generateFeatureValue unif nrm r (k + 1) j

/-- The sampling loop of `generateSyntheticData` (cart.ts:494-497): `n`
sequential samples from the tree, propagating a thrown error. -/
def sampleMany (unif nrm : ℕ → ℝ) (tree : TreeNode) :
    ℕ → ℕ → ℕ → Except String (List DataPoint)
  | 0, _, _ => .ok []
  | n + 1, k, j =>
    match generateFeatureValue unif nrm tree k j with
    | .error e => .error e
    | .ok (p, k2, j2) =>
      match sampleMany unif nrm tree n k2 j2 with
      | .error e => .error e
      | .ok rest => .ok (p :: rest)

/-- `generateSyntheticData` (cart.ts:485): build one tree over all features
with the fixed parameters `(maxDepth 6, minSamplesSplit 3, alpha 0.005)`,
then draw `targetSize` records.  The JS `for (let i = 0; i < targetSize; i++)`
loop runs `max targetSize 0` times for an integer `targetSize`. -/
def generateSyntheticData (now : ℝ) (unif nrm : ℕ → ℝ)
    (realData : List DataPoint) (targetSize : ℤ) : Except String (List DataPoint) :=
  let tree := buildDecisionTree now realData 0 6 3 (5 / 1000) .all
  sampleMany unif nrm tree targetSize.toNat 0 0

/-- The `impurity` field of a node. -/
def TreeNode.impurityOpt : TreeNode → Option ℝ
  | .leaf _ i _ => i
  | .internal _ _ _ i _ _ _ => i

/-- The `samples` field of a node. -/
def TreeNode.samplesOpt : TreeNode → Option ℕ
  | .leaf _ _ s => s
  | .internal _ _ _ _ s _ _ => s

/-- Ghost-instrumented tree: a `TreeNode` in which every node additionally
records the list of input records it was built from (its covered records).
Erasing the ghost field gives back a `TreeNode`. -/
inductive GTree where
  | leaf (covered : List DataPoint) (value : Option LeafValue)
      (impurity : Option ℝ) (samples : Option ℕ)
  | internal (covered : List DataPoint) (feature : Feature) (threshold : JsVal)
      (value : Option LeafValue) (impurity : Option ℝ) (samples : Option ℕ)
      (left right : GTree)

/-- Forget the ghost covered-records field. -/
def GTree.erase : GTree → TreeNode
  | .leaf _ v i s => .leaf v i s
  | .internal _ f th v i s l r => .internal f th v i s l.erase r.erase

/-- The covered records of the root of a ghost tree. -/
def GTree.covered : GTree → List DataPoint
  | .leaf c _ _ _ => c
  | .internal c _ _ _ _ _ _ _ => c

/-- `pruneTree` on ghost trees: identical decisions (taken on the erased
fields), covered records unchanged. -/
def pruneTreeG (node : GTree) (alpha : ℝ) : GTree :=
  match node with
  | .leaf c v i s => .leaf c v i s
  | .internal c f th v i s l r =>
    let pl := pruneTreeG l alpha
    let pr := pruneTreeG r alpha
    let leafCost := i.getD 0 * ((s.getD 0 : ℕ) : ℝ)
    let subtreeCost := pl.erase.impurityD * (pl.erase.samplesD : ℝ)
      + pr.erase.impurityD * (pr.erase.samplesD : ℝ) + alpha * 2
    if leafCost ≤ subtreeCost then .leaf c v i s
    else .internal c f th v i s pl pr

/-- `buildDecisionTree` instrumented with covered records: every node keeps
the record list it was built from; all decisions are word-for-word those of
`buildDecisionTree`. -/
def buildDecisionTreeG (now : ℝ) (data : List DataPoint) (depth maxDepth minSamplesSplit : ℕ)
    (alpha : ℝ) (tf : TargetFeature) : GTree :=
  let leafNode := createLeafNode now data
  let gleaf : GTree := .leaf data leafNode.valueOf leafNode.impurityOpt leafNode.samplesOpt
  if depth = maxDepth ∨ data.length < minSamplesSplit then gleaf
  else
    let bestSplit := chooseBestSplit data tf
    let leftData := splitLeftData data bestSplit
    let rightData := splitRightData data bestSplit
    if h : leftData.length = 0 ∨ rightData.length = 0 ∨
        ((leafNode.impurityD : ℝ) : WithTop ℝ) ≤ scoreD bestSplit then
      gleaf
    else
      match bestSplit with
      | none => gleaf
      | some b =>
        pruneTreeG
          (.internal data b.feature b.threshold leafNode.valueOf
            (some (b.score.untop' 0)) (some data.length)
            (buildDecisionTreeG now leftData (depth + 1) maxDepth minSamplesSplit alpha tf)
            (buildDecisionTreeG now rightData (depth + 1) maxDepth minSamplesSplit alpha tf))
          alpha
termination_by data.length
decreasing_by
  · have hsum := splitData_length data (chooseBestSplit data tf)
    have h1 : ¬(splitLeftData data (chooseBestSplit data tf)).length = 0 :=
      fun hc => h (Or.inl hc)
    have h2 : ¬(splitRightData data (chooseBestSplit data tf)).length = 0 :=
      fun hc => h (Or.inr (Or.inl hc))
    omega
  · have hsum := splitData_length data (chooseBestSplit data tf)
    have h1 : ¬(splitLeftData data (chooseBestSplit data tf)).length = 0 :=
      fun hc => h (Or.inl hc)
    have h2 : ¬(splitRightData data (chooseBestSplit data tf)).length = 0 :=
      fun hc => h (Or.inr (Or.inl hc))
    omega

/-- Every internal node of a ghost tree partitions its covered records into
its children's covered records: union without loss, intersection empty. -/
def PartitionOK : GTree → Prop
  | .leaf _ _ _ _ => True
  | .internal c _ _ _ _ _ l r =>
    ((∀ d : DataPoint, d ∈ c ↔ d ∈ l.covered ∨ d ∈ r.covered) ∧
      (∀ d : DataPoint, ¬(d ∈ l.covered ∧ d ∈ r.covered))) ∧
    PartitionOK l ∧ PartitionOK r

/-- `calculatePearsonCorrelation` (SyntheticData.tsx:319): note that both
means divide the sum over the whole input array by `n = min(|x|, |y|)`,
while the moment loops run over indices below `n` only. -/
def calculatePearsonCorrelation (x y : List ℝ) : ℝ :=
  let n := min x.length y.length
  if n = 0 then 0
  else
    let meanX := x.sum / (n : ℝ)
    let meanY := y.sum / (n : ℝ)
    let ps := x.zip y
    let numerator := (ps.map (fun p => (p.1 - meanX) * (p.2 - meanY))).sum
    let denominatorX := (ps.map (fun p => (p.1 - meanX) * (p.1 - meanX))).sum
    let denominatorY := (ps.map (fun p => (p.2 - meanY) * (p.2 - meanY))).sum
    if denominatorX = 0 ∧ denominatorY = 0 then 1
    else if denominatorX = 0 ∨ denominatorY = 0 then 0
    else max (-1) (min 1 (numerator / Real.sqrt (denominatorX * denominatorY)))

/-- Number of nodes of a tree. -/
def countNodes : TreeNode → ℕ
  | .leaf _ _ _ => 1
  | .internal _ _ _ _ _ l r => 1 + countNodes l + countNodes r

/-- Every node produced by the builder carries `value` statistics, at every
level. -/
def HasStats : TreeNode → Prop
  | .leaf v _ _ => v.isSome = true
  | .internal _ _ v _ _ l r => v.isSome = true ∧ HasStats l ∧ HasStats r

/-- Pruning never drops the `value` statistics of surviving nodes. -/
theorem pruneTree_hasStats (alpha : ℝ) :
    ∀ t : TreeNode, HasStats t → HasStats (pruneTree t alpha) := by
  intro t
  induction t with
  | leaf v i s => intro h; simpa [pruneTree] using h
  | internal f th v i s l r ihl ihr =>
    intro h
    obtain ⟨hv, hl, hr⟩ := h
    simp only [pruneTree]
    split
    · exact hv
    · exact ⟨hv, ihl hl, ihr hr⟩

/-- Leaf construction always stores `value` statistics. -/
theorem createLeafNode_hasStats (now : ℝ) (data : List DataPoint) :
    HasStats (createLeafNode now data) := rfl

/-- Every tree returned by the builder has `value` statistics at every node. -/
theorem buildDecisionTree_hasStats (now : ℝ) (data : List DataPoint)
    (depth maxDepth minSamplesSplit : ℕ) (alpha : ℝ) (tf : TargetFeature) :
    HasStats (buildDecisionTree now data depth maxDepth minSamplesSplit alpha tf) := by
  induction data, depth, maxDepth, minSamplesSplit, alpha, tf
    using buildDecisionTree.induct now with
  | case1 data depth maxDepth minSamplesSplit alpha tf hstop =>
    rw [buildDecisionTree]
    simp only [if_pos hstop]
    exact createLeafNode_hasStats now data
  | case2 data depth maxDepth minSamplesSplit alpha tf leafNode hstop
      bestSplit leftData rightData hguard =>
    rw [buildDecisionTree]
    simp only [if_neg hstop, dif_pos hguard]
    exact createLeafNode_hasStats now data
  | case3 data depth maxDepth minSamplesSplit alpha tf leafNode hstop
      bestSplit leftData rightData hguard hguard2 hnone =>
    rw [buildDecisionTree]
    simp only [if_neg hstop, dif_neg hguard]
    split
    · exact createLeafNode_hasStats now data
    · next b2 hx heq hh => exact Option.noConfusion (hnone.symm.trans heq)
  | case4 data depth maxDepth minSamplesSplit alpha tf leafNode hstop
      bestSplit leftData rightData hguard b hguard2 hsome ihl ihr =>
    rw [buildDecisionTree]
    simp only [if_neg hstop, dif_neg hguard]
    split
    · next hx heq hh => exact Option.noConfusion (hsome.symm.trans heq)
    · next b2 hx heq hh =>
      obtain rfl : b2 = b := (Option.some.inj (hsome.symm.trans heq)).symm
      exact pruneTree_hasStats alpha _ ⟨rfl, ihl, ihr⟩

/-- A tree with statistics everywhere is sampled without error. -/
theorem generateFeatureValue_ok (unif nrm : ℕ → ℝ) :
    ∀ (t : TreeNode), HasStats t → ∀ (k j : ℕ),
      ∃ p k2 j2, generateFeatureValue unif nrm t k j = .ok (p, k2, j2) := by
  intro t
  induction t with
  | leaf v i s =>
    intro h k j
    match v, h with
    | some lv, _ => exact ⟨_, _, _, rfl⟩
  | internal f th v i s l r ihl ihr =>
    intro h k j
    obtain ⟨hv, hl, hr⟩ := h
    match v, hv with
    | some lv, _ =>
      match f with
      | .date =>
        simp only [generateFeatureValue]
        split
        · exact ihl hl (k + 1) j
        · exact ihr hr (k + 1) j
      | .value =>
        simp only [generateFeatureValue]
        split
        · exact ihl hl k (j + 1)
        · exact ihr hr k (j + 1)
      | .category =>
        simp only [generateFeatureValue]
        split
        · exact ihl hl (k + 1) j
        · exact ihr hr (k + 1) j

/-- Sampling `n` records from a tree with statistics everywhere yields an
`ok` list of length exactly `n`. -/
theorem sampleMany_ok (unif nrm : ℕ → ℝ) (t : TreeNode) (h : HasStats t) :
    ∀ (n k j : ℕ), ∃ l, sampleMany unif nrm t n k j = .ok l ∧ l.length = n := by
  intro n
  induction n with
  | zero => intro k j; exact ⟨[], rfl, rfl⟩
  | succ m ih =>
    intro k j
    obtain ⟨p, k2, j2, hp⟩ := generateFeatureValue_ok unif nrm t h k j
    obtain ⟨rest, hrest, hlen⟩ := ih k2 j2
    refine ⟨p :: rest, ?_, by simp [hlen]⟩
    simp only [sampleMany, hp, hrest]

/-- C1: for every valid request (non-empty record set, positive integer
`targetSize`), `generateSyntheticData` succeeds and returns a list of exactly
`targetSize` synthetic records. -/
theorem claim_C1_output_length (now : ℝ) (unif nrm : ℕ → ℝ) (realData : List DataPoint)
    (targetSize : ℤ) (hne : realData ≠ []) (hpos : 0 < targetSize) :
    ∃ l, generateSyntheticData now unif nrm realData targetSize = .ok l ∧
      (l.length : ℤ) = targetSize := by
  obtain ⟨l, hok, hlen⟩ := sampleMany_ok unif nrm
    (buildDecisionTree now realData 0 6 3 (5 / 1000) .all)
    (buildDecisionTree_hasStats now realData 0 6 3 (5 / 1000) .all)
    targetSize.toNat 0 0
  exact ⟨l, hok, by rw [hlen]; exact Int.toNat_of_nonneg hpos.le⟩

/-- Witness for C1 at a concrete input: one record, `targetSize = 2`. -/
theorem claim_C1_output_length_witness :
    ([⟨0, 1, "A"⟩] : List DataPoint) ≠ [] ∧ (0 : ℤ) < 2 ∧
    ∃ l, generateSyntheticData 0 (fun _ => 0) (fun _ => 0) [⟨0, 1, "A"⟩] 2 = .ok l ∧
      (l.length : ℤ) = 2 :=
  ⟨by simp, by norm_num,
    claim_C1_output_length 0 (fun _ => 0) (fun _ => 0) [⟨0, 1, "A"⟩] 2 (by simp) (by norm_num)⟩

/-- C2 (amended): the pipeline performs no input validation.  For
`targetSize ≤ 0` generation returns `ok []` without any error (the tree is
still built); an empty record set is not rejected either: the builder
produces a fallback-statistics leaf and generation succeeds with the
requested number of records. -/
theorem claim_C2_no_input_validation :
    (∀ (now : ℝ) (unif nrm : ℕ → ℝ) (data : List DataPoint) (targetSize : ℤ),
      targetSize ≤ 0 →
      generateSyntheticData now unif nrm data targetSize = .ok []) ∧
    (∀ (now : ℝ) (unif nrm : ℕ → ℝ) (targetSize : ℤ),
      ∃ l, generateSyntheticData now unif nrm [] targetSize = .ok l ∧
        l.length = targetSize.toNat) := by
  constructor
  · intro now unif nrm data ts h
    show sampleMany unif nrm (buildDecisionTree now data 0 6 3 (5 / 1000) .all)
      ts.toNat 0 0 = .ok []
    rw [Int.toNat_of_nonpos h]
    rfl
  · intro now unif nrm ts
    exact sampleMany_ok unif nrm (buildDecisionTree now [] 0 6 3 (5 / 1000) .all)
      (buildDecisionTree_hasStats now [] 0 6 3 (5 / 1000) .all) ts.toNat 0 0

/-- Witness for C2 (amended) at a concrete input. -/
theorem claim_C2_no_input_validation_witness :
    generateSyntheticData 0 (fun _ => 0) (fun _ => 0) [⟨0, 1, "A"⟩] 0 = .ok [] :=
  claim_C2_no_input_validation.1 0 (fun _ => 0) (fun _ => 0) [⟨0, 1, "A"⟩] 0 le_rfl

/-- Counterexample to C2 as stated: at the concrete request
(`records = [⟨0, 1, "A"⟩]`, `targetSize = 0`) the generator does not fail
with an input error — it returns `ok []`, and likewise the empty record set
with `targetSize = 3` yields `ok` with three records rather than an input
error. -/
theorem claim_C2_counterexample :
    generateSyntheticData 0 (fun _ => 0) (fun _ => 0) [⟨0, 1, "A"⟩] 0 = .ok [] ∧
    ∃ l, generateSyntheticData 0 (fun _ => 0) (fun _ => 0) [] 3 = .ok l ∧ l.length = 3 := by
  constructor
  · rfl
  · exact sampleMany_ok (fun _ => 0) (fun _ => 0)
      (buildDecisionTree 0 [] 0 6 3 (5 / 1000) .all)
      (buildDecisionTree_hasStats 0 [] 0 6 3 (5 / 1000) .all) 3 0 0

/-- Pruning does not change the covered records at the root. -/
theorem pruneTreeG_covered (alpha : ℝ) :
    ∀ g : GTree, (pruneTreeG g alpha).covered = g.covered := by
  intro g
  cases g with
  | leaf c v i s => rfl
  | internal c f th v i s l r =>
    simp only [pruneTreeG]
    split <;> rfl

/-- Pruning preserves the partition invariant. -/
theorem pruneTreeG_partitionOK (alpha : ℝ) :
    ∀ g : GTree, PartitionOK g → PartitionOK (pruneTreeG g alpha) := by
  intro g
  induction g with
  | leaf c v i s => intro _; trivial
  | internal c f th v i s l r ihl ihr =>
    intro h
    obtain ⟨⟨hmem, hdisj⟩, hl, hr⟩ := h
    simp only [pruneTreeG]
    split
    · trivial
    · refine ⟨⟨?_, ?_⟩, ihl hl, ihr hr⟩
      · simpa only [pruneTreeG_covered] using hmem
      · simpa only [pruneTreeG_covered] using hdisj

/-- Erasure commutes with pruning. -/
theorem pruneTreeG_erase (alpha : ℝ) :
    ∀ g : GTree, (pruneTreeG g alpha).erase = pruneTree g.erase alpha := by
  intro g
  induction g with
  | leaf c v i s => rfl
  | internal c f th v i s l r ihl ihr =>
    show (pruneTreeG (GTree.internal c f th v i s l r) alpha).erase =
      pruneTree (GTree.internal c f th v i s l r).erase alpha
    simp only [pruneTreeG, GTree.erase, pruneTree, ihl, ihr]
    split <;> simp [GTree.erase, ihl, ihr]

/-- The ghost builder covers exactly its input records at the root. -/
theorem buildDecisionTreeG_covered (now : ℝ) (data : List DataPoint)
    (depth maxDepth minSamplesSplit : ℕ) (alpha : ℝ) (tf : TargetFeature) :
    (buildDecisionTreeG now data depth maxDepth minSamplesSplit alpha tf).covered = data := by
  induction data, depth, maxDepth, minSamplesSplit, alpha, tf
    using buildDecisionTreeG.induct now with
  | case1 data depth maxDepth minSamplesSplit alpha tf hstop =>
    rw [buildDecisionTreeG]
    simp only [if_pos hstop]
    rfl
  | case2 data depth maxDepth minSamplesSplit alpha tf leafNode hstop
      bestSplit leftData rightData hguard =>
    rw [buildDecisionTreeG]
    simp only [if_neg hstop, dif_pos hguard]
    rfl
  | case3 data depth maxDepth minSamplesSplit alpha tf leafNode hstop
      bestSplit leftData rightData hguard hguard2 hnone =>
    rw [buildDecisionTreeG]
    simp only [if_neg hstop, dif_neg hguard]
    split
    · rfl
    · next b2 hx heq hh => exact Option.noConfusion (hnone.symm.trans heq)
  | case4 data depth maxDepth minSamplesSplit alpha tf leafNode hstop
      bestSplit leftData rightData hguard b hguard2 hsome ihl ihr =>
    rw [buildDecisionTreeG]
    simp only [if_neg hstop, dif_neg hguard]
    split
    · next hx heq hh => exact Option.noConfusion (hsome.symm.trans heq)
    · next b2 hx heq hh =>
      rw [pruneTreeG_covered]
      rfl

/-- Membership facts of the two split partitions: together they cover the
data and they are disjoint. -/
theorem splitData_mem (data : List DataPoint) (bs : Option SplitChoice) (d : DataPoint) :
    (d ∈ data ↔ d ∈ splitLeftData data bs ∨ d ∈ splitRightData data bs) ∧
    ¬(d ∈ splitLeftData data bs ∧ d ∈ splitRightData data bs) := by
  have hnum : ∀ (f : DataPoint → ℝ) (t : ℝ),
      (d ∈ data ↔ d ∈ data.filter (fun x => decide (f x ≤ t)) ∨
        d ∈ data.filter (fun x => decide (t < f x))) ∧
      ¬(d ∈ data.filter (fun x => decide (f x ≤ t)) ∧
        d ∈ data.filter (fun x => decide (t < f x))) := by
    intro f t
    simp only [List.mem_filter, decide_eq_true_eq]
    constructor
    · constructor
      · intro hd
        by_cases hc : f d ≤ t
        · exact Or.inl ⟨hd, hc⟩
        · exact Or.inr ⟨hd, not_le.mp hc⟩
      · rintro (⟨hd, _⟩ | ⟨hd, _⟩) <;> exact hd
    · rintro ⟨⟨_, hle⟩, ⟨_, hlt⟩⟩
      exact absurd hle (not_le.mpr hlt)
  match bs with
  | none => exact hnum (·.value) 0
  | some ⟨.date, th, sc⟩ =>
    simpa only [splitLeftData, splitRightData] using hnum (·.date) th.toNum
  | some ⟨.value, th, sc⟩ =>
    simpa only [splitLeftData, splitRightData] using hnum (·.value) th.toNum
  | some ⟨.category, th, sc⟩ =>
    simp only [splitLeftData, splitRightData, List.mem_filter, decide_eq_true_eq]
    constructor
    · constructor
      · intro hd
        by_cases hc : d.category = th.toStr
        · exact Or.inl ⟨hd, hc⟩
        · exact Or.inr ⟨hd, hc⟩
      · rintro (⟨hd, _⟩ | ⟨hd, _⟩) <;> exact hd
    · rintro ⟨⟨_, heq⟩, ⟨_, hne⟩⟩
      exact hne heq

/-- The ghost builder satisfies the partition invariant at every internal
node. -/
theorem buildDecisionTreeG_partitionOK (now : ℝ) (data : List DataPoint)
    (depth maxDepth minSamplesSplit : ℕ) (alpha : ℝ) (tf : TargetFeature) :
    PartitionOK (buildDecisionTreeG now data depth maxDepth minSamplesSplit alpha tf) := by
  induction data, depth, maxDepth, minSamplesSplit, alpha, tf
    using buildDecisionTreeG.induct now with
  | case1 data depth maxDepth minSamplesSplit alpha tf hstop =>
    rw [buildDecisionTreeG]
    simp only [if_pos hstop]
    trivial
  | case2 data depth maxDepth minSamplesSplit alpha tf leafNode hstop
      bestSplit leftData rightData hguard =>
    rw [buildDecisionTreeG]
    simp only [if_neg hstop, dif_pos hguard]
    trivial
  | case3 data depth maxDepth minSamplesSplit alpha tf leafNode hstop
      bestSplit leftData rightData hguard hguard2 hnone =>
    rw [buildDecisionTreeG]
    simp only [if_neg hstop, dif_neg hguard]
    split
    · trivial
    · next b2 hx heq hh => exact Option.noConfusion (hnone.symm.trans heq)
  | case4 data depth maxDepth minSamplesSplit alpha tf leafNode hstop
      bestSplit leftData rightData hguard b hguard2 hsome ihl ihr =>
    rw [buildDecisionTreeG]
    simp only [if_neg hstop, dif_neg hguard]
    split
    · next hx heq hh => exact Option.noConfusion (hsome.symm.trans heq)
    · next b2 hx heq hh =>
      refine pruneTreeG_partitionOK alpha _ ⟨⟨?_, ?_⟩, ihl, ihr⟩
      · intro d
        rw [buildDecisionTreeG_covered, buildDecisionTreeG_covered]
        exact (splitData_mem data (chooseBestSplit data tf) d).1
      · intro d
        rw [buildDecisionTreeG_covered, buildDecisionTreeG_covered]
        exact (splitData_mem data (chooseBestSplit data tf) d).2

/-- Erasing the ghost field of the instrumented builder gives exactly the
tree of `buildDecisionTree`. -/
theorem buildDecisionTreeG_erase (now : ℝ) (data : List DataPoint)
    (depth maxDepth minSamplesSplit : ℕ) (alpha : ℝ) (tf : TargetFeature) :
    (buildDecisionTreeG now data depth maxDepth minSamplesSplit alpha tf).erase =
      buildDecisionTree now data depth maxDepth minSamplesSplit alpha tf := by
  induction data, depth, maxDepth, minSamplesSplit, alpha, tf
    using buildDecisionTreeG.induct now with
  | case1 data depth maxDepth minSamplesSplit alpha tf hstop =>
    rw [buildDecisionTreeG, buildDecisionTree]
    simp only [if_pos hstop]
    rfl
  | case2 data depth maxDepth minSamplesSplit alpha tf leafNode hstop
      bestSplit leftData rightData hguard =>
    rw [buildDecisionTreeG, buildDecisionTree]
    simp only [if_neg hstop, dif_pos hguard]
    rfl
  | case3 data depth maxDepth minSamplesSplit alpha tf leafNode hstop
      bestSplit leftData rightData hguard hguard2 hnone =>
    rw [buildDecisionTreeG, buildDecisionTree]
    simp only [if_neg hstop, dif_neg hguard]
    split
    · rfl
    · next b2 hx heq hh => exact Option.noConfusion (hnone.symm.trans heq)
  | case4 data depth maxDepth minSamplesSplit alpha tf leafNode hstop
      bestSplit leftData rightData hguard b hguard2 hsome ihl ihr =>
    rw [buildDecisionTreeG, buildDecisionTree]
    simp only [if_neg hstop, dif_neg hguard]
    split
    · next hx heq hh => exact Option.noConfusion (hsome.symm.trans heq)
    · next b2 hx heq hh =>
      have ihl2 : (buildDecisionTreeG now (splitLeftData data (chooseBestSplit data tf))
          (depth + 1) maxDepth minSamplesSplit alpha tf).erase =
          buildDecisionTree now (splitLeftData data (chooseBestSplit data tf))
          (depth + 1) maxDepth minSamplesSplit alpha tf := ihl
      have ihr2 : (buildDecisionTreeG now (splitRightData data (chooseBestSplit data tf))
          (depth + 1) maxDepth minSamplesSplit alpha tf).erase =
          buildDecisionTree now (splitRightData data (chooseBestSplit data tf))
          (depth + 1) maxDepth minSamplesSplit alpha tf := ihr
      rw [pruneTreeG_erase]
      simp only [GTree.erase, ihl2, ihr2]

/-- C6: in every tree returned by the builder, each internal node's two
children partition the node's covered records exactly — their union is the
covered set and their intersection is empty.  Stated on the
covered-records-instrumented builder `buildDecisionTreeG`, whose erasure is
proved (second conjunct) to be exactly `buildDecisionTree`. -/
theorem claim_C6_children_partition (now : ℝ) (data : List DataPoint)
    (depth maxDepth minSamplesSplit : ℕ) (alpha : ℝ) (tf : TargetFeature) :
    PartitionOK (buildDecisionTreeG now data depth maxDepth minSamplesSplit alpha tf) ∧
    (buildDecisionTreeG now data depth maxDepth minSamplesSplit alpha tf).erase =
      buildDecisionTree now data depth maxDepth minSamplesSplit alpha tf :=
  ⟨buildDecisionTreeG_partitionOK now data depth maxDepth minSamplesSplit alpha tf,
    buildDecisionTreeG_erase now data depth maxDepth minSamplesSplit alpha tf⟩

/-- C8: pruning never increases the number of nodes, for any `alpha ≥ 0`. -/
theorem claim_C8_prune_node_count (t : TreeNode) (alpha : ℝ) (h : 0 ≤ alpha) :
    countNodes (pruneTree t alpha) ≤ countNodes t := by
  induction t with
  | leaf v i s => simp [pruneTree]
  | internal f th v i s l r ihl ihr =>
    simp only [pruneTree]
    split
    · simp only [countNodes]
      omega
    · simp only [countNodes]
      omega

/-- Witness for C8 at a concrete tree and `alpha = 0`. -/
theorem claim_C8_prune_node_count_witness :
    (0 : ℝ) ≤ 0 ∧
    countNodes (pruneTree (.leaf none none none) 0) ≤ countNodes (.leaf none none none) :=
  ⟨le_rfl, claim_C8_prune_node_count (.leaf none none none) 0 le_rfl⟩

/-- Erase the `value` summary statistics everywhere, keeping split features,
thresholds, impurities, sample counts and the node structure. -/
def stripStats : TreeNode → TreeNode
  | .leaf _ i s => .leaf none i s
  | .internal f th _ i s l r => .internal f th none i s (stripStats l) (stripStats r)

/-- `stripStats` preserves `impurityD`. -/
theorem stripStats_impurityD (t : TreeNode) : (stripStats t).impurityD = t.impurityD := by
  cases t <;> rfl

/-- `stripStats` preserves `samplesD`. -/
theorem stripStats_samplesD (t : TreeNode) : (stripStats t).samplesD = t.samplesD := by
  cases t <;> rfl

/-- Trees with the same statistics-stripped skeleton stay that way under
pruning: all pruning decisions read only stripped fields. -/
theorem stripStats_pruneTree_congr (alpha : ℝ) :
    ∀ a b : TreeNode, stripStats a = stripStats b →
      stripStats (pruneTree a alpha) = stripStats (pruneTree b alpha) := by
  intro a
  induction a with
  | leaf v i s =>
    intro b hab
    cases b with
    | leaf v2 i2 s2 => simpa [pruneTree] using hab
    | internal f2 th2 v2 i2 s2 l2 r2 => exact absurd hab (by simp [stripStats])
  | internal f th v i s l r ihl ihr =>
    intro b hab
    cases b with
    | leaf v2 i2 s2 => exact absurd hab (by simp [stripStats])
    | internal f2 th2 v2 i2 s2 l2 r2 =>
      simp only [stripStats, TreeNode.internal.injEq] at hab
      obtain ⟨hf, hth, -, hi, hs, hl, hr⟩ := hab
      subst hf hth hi hs
      have hil : (pruneTree l alpha).impurityD = (pruneTree l2 alpha).impurityD := by
        rw [← stripStats_impurityD, ihl l2 hl, stripStats_impurityD]
      have hir : (pruneTree r alpha).impurityD = (pruneTree r2 alpha).impurityD := by
        rw [← stripStats_impurityD, ihr r2 hr, stripStats_impurityD]
      have hsl : (pruneTree l alpha).samplesD = (pruneTree l2 alpha).samplesD := by
        rw [← stripStats_samplesD, ihl l2 hl, stripStats_samplesD]
      have hsr : (pruneTree r alpha).samplesD = (pruneTree r2 alpha).samplesD := by
        rw [← stripStats_samplesD, ihr r2 hr, stripStats_samplesD]
      simp only [pruneTree]
      rw [hil, hir, hsl, hsr]
      split
      · rfl
      · simp [stripStats, ihl l2 hl, ihr r2 hr]

/-- C7: tree building is deterministic given the record set and parameters.
The builder consumes no randomness; its only ambient input is the current
clock (`now`, used for fallback date ranges inside leaf `value` statistics),
and two builds with different clocks agree on split features, thresholds,
impurities, sample counts and the entire node structure — everything except
the `value` statistics, which `stripStats` erases. -/
theorem claim_C7_build_deterministic (now1 now2 : ℝ) (data : List DataPoint)
    (depth maxDepth minSamplesSplit : ℕ) (alpha : ℝ) (tf : TargetFeature) :
    stripStats (buildDecisionTree now1 data depth maxDepth minSamplesSplit alpha tf) =
    stripStats (buildDecisionTree now2 data depth maxDepth minSamplesSplit alpha tf) := by
  induction data, depth, maxDepth, minSamplesSplit, alpha, tf
    using buildDecisionTree.induct now1 with
  | case1 data depth maxDepth minSamplesSplit alpha tf hstop =>
    rw [buildDecisionTree, buildDecisionTree]
    simp only [if_pos hstop]
    rfl
  | case2 data depth maxDepth minSamplesSplit alpha tf leafNode hstop
      bestSplit leftData rightData hguard =>
    rw [buildDecisionTree, buildDecisionTree]
    simp only [if_neg hstop]
    have hguard2 : (splitLeftData data (chooseBestSplit data tf)).length = 0 ∨
        (splitRightData data (chooseBestSplit data tf)).length = 0 ∨
        (((createLeafNode now2 data).impurityD : ℝ) : WithTop ℝ) ≤
          scoreD (chooseBestSplit data tf) := hguard
    rw [dif_pos hguard, dif_pos hguard2]
    rfl
  | case3 data depth maxDepth minSamplesSplit alpha tf leafNode hstop
      bestSplit leftData rightData hguard hguard2 hnone =>
    rw [buildDecisionTree, buildDecisionTree]
    simp only [if_neg hstop]
    have hguard3 : ¬((splitLeftData data (chooseBestSplit data tf)).length = 0 ∨
        (splitRightData data (chooseBestSplit data tf)).length = 0 ∨
        (((createLeafNode now2 data).impurityD : ℝ) : WithTop ℝ) ≤
          scoreD (chooseBestSplit data tf)) := hguard
    rw [dif_neg hguard, dif_neg hguard3]
    split
    · next hx1 heq1 hh1 =>
      split
      · rfl
      · next b3 hx2 heq2 hh2 => exact Option.noConfusion (heq1.symm.trans heq2)
    · next b2 hx1 heq1 hh1 => exact Option.noConfusion (hnone.symm.trans heq1)
  | case4 data depth maxDepth minSamplesSplit alpha tf leafNode hstop
      bestSplit leftData rightData hguard b hguard2 hsome ihl ihr =>
    rw [buildDecisionTree, buildDecisionTree]
    simp only [if_neg hstop]
    have hguard3 : ¬((splitLeftData data (chooseBestSplit data tf)).length = 0 ∨
        (splitRightData data (chooseBestSplit data tf)).length = 0 ∨
        (((createLeafNode now2 data).impurityD : ℝ) : WithTop ℝ) ≤
          scoreD (chooseBestSplit data tf)) := hguard
    rw [dif_neg hguard, dif_neg hguard3]
    split
    · next hx1 heq1 hh1 => exact Option.noConfusion (hsome.symm.trans heq1)
    · next b2 hx1 heq1 hh1 =>
      have ihl2 : stripStats (buildDecisionTree now1 (splitLeftData data (chooseBestSplit data tf))
          (depth + 1) maxDepth minSamplesSplit alpha tf) =
          stripStats (buildDecisionTree now2 (splitLeftData data (chooseBestSplit data tf))
          (depth + 1) maxDepth minSamplesSplit alpha tf) := ihl
      have ihr2 : stripStats (buildDecisionTree now1 (splitRightData data (chooseBestSplit data tf))
          (depth + 1) maxDepth minSamplesSplit alpha tf) =
          stripStats (buildDecisionTree now2 (splitRightData data (chooseBestSplit data tf))
          (depth + 1) maxDepth minSamplesSplit alpha tf) := ihr
      split
      · next hx2 heq2 hh2 => exact Option.noConfusion (heq1.symm.trans heq2)
      · next b3 hx2 heq2 hh2 =>
        obtain rfl : b2 = b3 := Option.some.inj (heq1.symm.trans heq2)
        apply stripStats_pruneTree_congr
        simp [stripStats, ihl2, ihr2]

/-- C10: on every tree produced by the builder (any parameters, any input),
the sampler terminates with a single complete record (model: it is a total
function returning `ok` with a `DataPoint`, which carries all three
fields). -/
theorem claim_C10_sampler_total (now : ℝ) (unif nrm : ℕ → ℝ) (data : List DataPoint)
    (depth maxDepth minSamplesSplit : ℕ) (alpha : ℝ) (tf : TargetFeature) (k j : ℕ) :
    ∃ p k2 j2, generateFeatureValue unif nrm
      (buildDecisionTree now data depth maxDepth minSamplesSplit alpha tf) k j =
        .ok (p, k2, j2) :=
  generateFeatureValue_ok unif nrm _
    (buildDecisionTree_hasStats now data depth maxDepth minSamplesSplit alpha tf) k j

/-- A constant vector: all entries are equal. -/
def IsConstVec (l : List ℝ) : Prop := ∀ a ∈ l, ∀ b ∈ l, a = b

/-- A list of nonnegative reals sums to zero exactly when every entry is
zero. -/
theorem sum_nonneg_eq_zero_iff (l : List ℝ) (h : ∀ a ∈ l, 0 ≤ a) :
    l.sum = 0 ↔ ∀ a ∈ l, a = 0 := by
  induction l with
  | nil => simp
  | cons a as ih =>
    have ha : 0 ≤ a := h a (by simp)
    have has : ∀ b ∈ as, 0 ≤ b := fun b hb => h b (by simp [hb])
    have hsum : 0 ≤ as.sum := List.sum_nonneg has
    simp only [List.sum_cons, List.mem_cons]
    rw [add_eq_zero_iff_of_nonneg ha hsum, ih has]
    constructor
    · rintro ⟨h0, hall⟩ b (rfl | hb)
      · exact h0
      · exact hall b hb
    · intro hall
      exact ⟨hall a (Or.inl rfl), fun b hb => hall b (Or.inr hb)⟩

/-- The sum of a constant list. -/
theorem sum_of_const (l : List ℝ) (c : ℝ) (h : ∀ a ∈ l, a = c) :
    l.sum = (l.length : ℝ) * c := by
  induction l with
  | nil => simp
  | cons a as ih =>
    have := ih (fun b hb => h b (by simp [hb]))
    simp only [List.sum_cons, List.length_cons, h a (by simp), this]
    push_cast
    ring

/-- C5 (amended): for equal-length vectors `calculatePearsonCorrelation`
returns `1` when both are constant and equal (and nonempty) and `0` when
exactly one is constant; for all vectors of any lengths the result lies in
`[-1, 1]`.  (As frozen, without the equal-length restriction, the claim
fails: see the counterexample.) -/
theorem claim_C5_pearson_degenerate (x y : List ℝ) :
    (x.length = y.length →
      ((IsConstVec x ∧ x = y ∧ x ≠ [] → calculatePearsonCorrelation x y = 1) ∧
        ((IsConstVec x ∧ ¬IsConstVec y) ∨ (¬IsConstVec x ∧ IsConstVec y) →
          calculatePearsonCorrelation x y = 0))) ∧
    -1 ≤ calculatePearsonCorrelation x y ∧ calculatePearsonCorrelation x y ≤ 1 := by
  constructor
  · intro hlen
    -- with equal lengths, the zip projections recover the two lists
    have hx : (x.zip y).map Prod.fst = x := List.map_fst_zip x y (le_of_eq hlen)
    have hy : (x.zip y).map Prod.snd = y := List.map_snd_zip x y (le_of_eq hlen.symm)
    have hdx : ∀ m : ℝ, ((x.zip y).map (fun p => (p.1 - m) * (p.1 - m))).sum =
        (x.map (fun a => (a - m) * (a - m))).sum := by
      intro m
      rw [show (fun p : ℝ × ℝ => (p.1 - m) * (p.1 - m)) =
        (fun a : ℝ => (a - m) * (a - m)) ∘ Prod.fst from rfl]
      rw [← List.map_map, hx]
    have hdy : ∀ m : ℝ, ((x.zip y).map (fun p => (p.2 - m) * (p.2 - m))).sum =
        (y.map (fun b => (b - m) * (b - m))).sum := by
      intro m
      rw [show (fun p : ℝ × ℝ => (p.2 - m) * (p.2 - m)) =
        (fun b : ℝ => (b - m) * (b - m)) ∘ Prod.snd from rfl]
      rw [← List.map_map, hy]
    -- denominator of a list is zero iff the list is constant at its mean
    have hzero : ∀ (l : List ℝ) (m : ℝ),
        ((l.map (fun a => (a - m) * (a - m))).sum = 0 ↔ ∀ a ∈ l, a = m) := by
      intro l m
      rw [sum_nonneg_eq_zero_iff]
      · constructor
        · intro hall a ha
          have := hall ((a - m) * (a - m)) (List.mem_map_of_mem _ ha)
          nlinarith [this]
        · intro hall a ha
          obtain ⟨b, hb, rfl⟩ := List.mem_map.mp ha
          rw [hall b hb]
          ring
      · intro a ha
        obtain ⟨b, hb, rfl⟩ := List.mem_map.mp ha
        nlinarith []
    constructor
    · -- both constant and equal (and nonempty) → 1
      rintro ⟨hconst, rfl, hne⟩
      have hn : min x.length x.length ≠ 0 := by
        simpa using fun h => hne (List.length_eq_zero.mp h)
      unfold calculatePearsonCorrelation
      simp only [if_neg hn]
      rw [if_pos]
      constructor
      · rw [hdx]
        rw [hzero]
        intro a ha
        obtain ⟨c, hc⟩ := List.exists_mem_of_ne_nil x hne
        have hac := hconst a ha c hc
        have hsum := sum_of_const x c (fun b hb => hconst b hb c hc)
        rw [hac, hsum]
        have hl : (x.length : ℝ) ≠ 0 := Nat.cast_ne_zero.mpr (fun h => hne (List.length_eq_zero.mp h))
        rw [Nat.min_self, mul_comm, mul_div_assoc, div_self hl, mul_one]
      · rw [hdy]
        rw [hzero]
        intro a ha
        obtain ⟨c, hc⟩ := List.exists_mem_of_ne_nil x hne
        have hac := hconst a ha c hc
        have hsum := sum_of_const x c (fun b hb => hconst b hb c hc)
        rw [hac, hsum]
        have hl : (x.length : ℝ) ≠ 0 := Nat.cast_ne_zero.mpr (fun h => hne (List.length_eq_zero.mp h))
        rw [Nat.min_self, mul_comm, mul_div_assoc, div_self hl, mul_one]
    · -- exactly one constant → 0
      intro hone
      -- a non-constant list is nonempty, so n ≠ 0
      have hnclen : ∀ l : List ℝ, ¬IsConstVec l → l ≠ [] := by
        intro l hnc hnil
        exact hnc (by simp [hnil, IsConstVec])
      have hne : x ≠ [] := by
        rcases hone with ⟨_, hnc⟩ | ⟨hnc, _⟩
        · intro hnil
          apply hnclen y hnc
          rw [← List.length_eq_zero, ← hlen, hnil]
          rfl
        · exact hnclen x hnc
      have hn : min x.length y.length ≠ 0 := by
        simp only [ne_eq, Nat.min_eq_zero_iff, not_or]
        constructor
        · exact fun h => hne (List.length_eq_zero.mp h)
        · rw [← hlen]
          exact fun h => hne (List.length_eq_zero.mp h)
      have hnR : ((min x.length y.length : ℕ) : ℝ) ≠ 0 := Nat.cast_ne_zero.mpr hn
      -- for a constant list the denominator is 0, for a non-constant one it is not
      have hconst_zero : ∀ (l : List ℝ) (hl : l.length = min x.length y.length),
          IsConstVec l → l ≠ [] →
          ((l.map (fun a => (a - l.sum / ((min x.length y.length : ℕ) : ℝ)) *
            (a - l.sum / ((min x.length y.length : ℕ) : ℝ)))).sum = 0) := by
        intro l hl hconst hlne
        rw [hzero]
        intro a ha
        obtain ⟨c, hc⟩ := List.exists_mem_of_ne_nil l hlne
        have hsum := sum_of_const l c (fun b hb => hconst b hb c hc)
        rw [hconst a ha c hc, hsum, hl]
        rw [mul_comm, mul_div_assoc, div_self hnR, mul_one]
      have hnconst_ne : ∀ (l : List ℝ) (m : ℝ), ¬IsConstVec l →
          ((l.map (fun a => (a - m) * (a - m))).sum ≠ 0) := by
        intro l m hnc h0
        apply hnc
        rw [hzero] at h0
        intro a ha b hb
        rw [h0 a ha, h0 b hb]
      unfold calculatePearsonCorrelation
      simp only [if_neg hn]
      rcases hone with ⟨hcx, hncy⟩ | ⟨hncx, hcy⟩
      · rw [if_neg, if_pos]
        · rw [hdx]
          exact Or.inl (hconst_zero x (by omega) hcx hne)
        · rintro ⟨-, hdy0⟩
          rw [hdy] at hdy0
          exact hnconst_ne y _ hncy hdy0
      · have hney : y ≠ [] := by
          intro hnil
          apply hne
          rw [← List.length_eq_zero, hlen, hnil]
          rfl
        rw [if_neg, if_pos]
        · rw [hdy]
          exact Or.inr (hconst_zero y (by omega) hcy hney)
        · rintro ⟨hdx0, -⟩
          rw [hdx] at hdx0
          exact hnconst_ne x _ hncx hdx0
  · -- always clamped to [-1, 1]
    unfold calculatePearsonCorrelation
    dsimp only
    constructor
    · split
      · norm_num
      · split
        · norm_num
        · split
          · norm_num
          · exact le_max_left _ _
    · split
      · norm_num
      · split
        · norm_num
        · split
          · norm_num
          · exact max_le (by norm_num) (min_le_left _ _)

/-- Witness for C5 (amended) at concrete vectors. -/
theorem claim_C5_pearson_degenerate_witness :
    calculatePearsonCorrelation [(3 : ℝ), 3] [3, 3] = 1 ∧
    calculatePearsonCorrelation [(0 : ℝ), 1] [5, 5] = 0 ∧
    -1 ≤ calculatePearsonCorrelation [(1 : ℝ), 2] [4, 3] ∧
    calculatePearsonCorrelation [(1 : ℝ), 2] [4, 3] ≤ 1 := by
  refine ⟨?_, ?_, ?_⟩
  · exact ((claim_C5_pearson_degenerate [3, 3] [3, 3]).1 rfl).1
      ⟨by intro a ha b hb; fin_cases ha <;> fin_cases hb <;> rfl, rfl, by simp⟩
  · exact ((claim_C5_pearson_degenerate [0, 1] [5, 5]).1 rfl).2
      (Or.inr ⟨by
        intro h
        have := h 0 (by simp) 1 (by simp)
        norm_num at this,
        by intro a ha b hb; fin_cases ha <;> fin_cases hb <;> rfl⟩)
  · exact (claim_C5_pearson_degenerate [1, 2] [4, 3]).2

/-- Counterexample to C5 as stated: with vectors of different lengths,
`calculatePearsonCorrelation [2, 2] [1, 1, 0]` returns `1` although exactly
one of the two vectors is constant (the claim requires `0`): the function
divides the full-array sums by `n = min(|x|, |y|)`, and the truncated
moments of `[1, 1, 0]` vanish against that skewed mean. -/
theorem claim_C5_counterexample :
    IsConstVec [(2 : ℝ), 2] ∧ ¬IsConstVec [(1 : ℝ), 1, 0] ∧
    calculatePearsonCorrelation [(2 : ℝ), 2] [1, 1, 0] = 1 := by
  refine ⟨?_, ?_, ?_⟩
  · intro a ha b hb
    fin_cases ha <;> fin_cases hb <;> rfl
  · intro h
    have := h 1 (by simp) 0 (by simp)
    norm_num at this
  · unfold calculatePearsonCorrelation
    norm_num [List.zip]

/-- The stored spread (`stdValue`) of a node's summary statistics, `1` when
the node has no statistics (unreachable for built nodes). -/
def TreeNode.stdValueD (t : TreeNode) : ℝ :=
  match t.valueOf with
  | some v => v.stdValue
  | none => 1

/-- `jsOrNum` on a present value. -/
theorem jsOrNum_some (x d : ℝ) : jsOrNum (some x) d = if x = 0 then d else x := rfl

/-- `jsOrNum` on a missing value. -/
theorem jsOrNum_none (d : ℝ) : jsOrNum none d = d := rfl

/-- The JS-falsy fallback `d3.deviation(values) || 1` is strictly positive:
either the fallback `1` fires, or the deviation is a nonzero square root. -/
theorem jsOrNum_deviation_pos (l : List ℝ) : 0 < jsOrNum (d3deviation l) 1 := by
  unfold d3deviation
  cases hv : d3variance l with
  | none => norm_num [jsOrNum_none]
  | some var =>
    rw [show Option.map Real.sqrt (some var) = some (Real.sqrt var) from rfl, jsOrNum_some]
    split
    · norm_num
    · next h => exact lt_of_le_of_ne (Real.sqrt_nonneg var) (Ne.symm h)

/-- C9 (amended): the spread stored in a node's summary statistics is always
strictly positive, and it is at least `1` in the degenerate cases — fewer
than two valid values, or a JS-falsy (zero) deviation.  It is not floored at
`1` in general: see the counterexample. -/
theorem claim_C9_spread (now : ℝ) (data : List DataPoint) :
    0 < (createLeafNode now data).stdValueD ∧
    ((((data.map (·.value)).filter isValidNumber).length < 2 ∨
      d3deviation ((data.map (·.value)).filter isValidNumber) = some 0) →
      1 ≤ (createLeafNode now data).stdValueD) := by
  constructor
  · simp only [TreeNode.stdValueD, createLeafNode, TreeNode.valueOf]
    split
    · exact lt_of_lt_of_le (jsOrNum_deviation_pos _) (le_max_left _ _)
    · norm_num
  · intro hdeg
    simp only [TreeNode.stdValueD, createLeafNode, TreeNode.valueOf]
    split
    · next hne =>
      rcases hdeg with hlen | hdev
      · have hlt : ¬(1 < (((handleMissingValues data).map (·.value)).filter isValidNumber).length) := by
          simp only [handleMissingValues]
          omega
        rw [if_neg hlt]
        exact le_max_right _ _
      · have h1 : jsOrNum (d3deviation (((handleMissingValues data).map
            (·.value)).filter isValidNumber)) 1 = 1 := by
          simp only [handleMissingValues]
          rw [hdev, jsOrNum_some, if_pos rfl]
        exact le_trans (le_of_eq h1.symm) (le_max_left _ _)
    · norm_num

/-- Witness for C9 (amended) at a concrete one-record input. -/
theorem claim_C9_spread_witness :
    ((([⟨0, 1, "A"⟩] : List DataPoint).map (·.value)).filter isValidNumber).length < 2 ∧
    1 ≤ (createLeafNode 0 [⟨0, 1, "A"⟩]).stdValueD := by
  have h : ((([⟨0, 1, "A"⟩] : List DataPoint).map (·.value)).filter isValidNumber).length < 2 := by
    simp only [List.map_cons, List.map_nil, List.filter_cons, List.filter_nil,
      isValidNumber, maxSafeInteger, decide_eq_true_eq]
    norm_num [abs_of_nonneg]
  exact ⟨h, (claim_C9_spread 0 [⟨0, 1, "A"⟩]).2 (Or.inl h)⟩

/-- Counterexample to C9 as stated: for the three records with values
`0, 0.1, 0.2` the stored spread is `0.1 < 1` (sample deviation `0.1`, IQR
term `0.1/1.349`); the `|| 1` fallback only fires for a zero/undefined
deviation, so the spread is not floored at `1`. -/
theorem claim_C9_counterexample :
    (createLeafNode 0 [⟨0, 0, "A"⟩, ⟨1, 1 / 10, "A"⟩, ⟨2, 2 / 10, "A"⟩]).stdValueD < 1 := by
  have hval : ((([⟨0, 0, "A"⟩, ⟨1, 1 / 10, "A"⟩, ⟨2, 2 / 10, "A"⟩] : List DataPoint).map
      (·.value)).filter isValidNumber) = [0, 1 / 10, 2 / 10] := by
    simp only [List.map_cons, List.map_nil, List.filter_cons, List.filter_nil,
      isValidNumber, maxSafeInteger, decide_eq_true_eq]
    norm_num [abs_of_nonneg]
  have hvar : d3variance [0, 1 / 10, 2 / 10] = some (1 / 100) := by
    unfold d3variance
    norm_num
  have hdev : d3deviation [0, 1 / 10, 2 / 10] = some (1 / 10) := by
    unfold d3deviation
    rw [hvar]
    rw [show Option.map Real.sqrt (some ((1 : ℝ) / 100)) = some (Real.sqrt (1 / 100)) from rfl]
    rw [show (1 : ℝ) / 100 = (1 / 10) ^ 2 by norm_num, Real.sqrt_sq (by norm_num)]
  have hsort : sortAsc [(0 : ℝ), 1 / 10, 2 / 10] = [0, 1 / 10, 2 / 10] := by
    show sortedInsert 0 (sortedInsert (1 / 10) (sortedInsert (2 / 10) [])) = [0, 1 / 10, 2 / 10]
    rw [show sortedInsert ((2 : ℝ) / 10) [] = [2 / 10] from rfl]
    rw [sortedInsert, if_pos (by norm_num), sortedInsert, if_pos (by norm_num)]
  have hq3 : d3quantile [0, 1 / 10, 2 / 10] (3 / 4) = some (3 / 20) := by
    unfold d3quantile
    rw [if_neg (by simp), if_neg (by norm_num), if_neg (by norm_num)]
    simp only [hsort]
    norm_num [List.getD]
  have hq1 : d3quantile [0, 1 / 10, 2 / 10] (1 / 4) = some (1 / 20) := by
    unfold d3quantile
    rw [if_neg (by simp), if_neg (by norm_num), if_neg (by norm_num)]
    simp only [hsort]
    norm_num [List.getD]
  simp only [TreeNode.stdValueD, createLeafNode, TreeNode.valueOf, handleMissingValues]
  rw [hval]
  rw [if_pos (by simp)]
  rw [hdev, hq3, hq1, jsOrNum_some]
  rw [if_neg (by norm_num), if_pos (by norm_num)]
  simp only [Option.getD_some]
  apply max_lt <;> norm_num

/-- Lower bound on the values the sampler can emit from a tree: at a leaf
with default statistics (`mean 0, spread 1`) the uniform fallback draws in
`[0, 100)`; at any other leaf the truncated-normal clamp bounds the draw
below by `mean - 3·spread`; an internal node samples from one of its
children. -/
def sampleValueLB : TreeNode → ℝ
  | .leaf none _ _ => 0
  | .leaf (some v) _ _ =>
    if v.meanValue = 0 ∧ v.stdValue = 1 then 0 else v.meanValue - 3 * v.stdValue
  | .internal _ _ _ _ _ l r => min (sampleValueLB l) (sampleValueLB r)

/-- C3 (amended): every sampled value is bounded below by `sampleValueLB` of
the tree — at each leaf the clamp enforces `value ≥ mean - 3·spread` (or
`value ≥ 0` for the uniform default-statistics fallback).  There is no
non-negativity clamp, and `mean - 3·spread` can be negative even when all
input values are non-negative: see the counterexample. -/
theorem claim_C3_value_lower_bound (unif nrm : ℕ → ℝ) (hu : ∀ n, 0 ≤ unif n) :
    ∀ (t : TreeNode) (k j : ℕ) (p : DataPoint) (k2 j2 : ℕ),
      generateFeatureValue unif nrm t k j = .ok (p, k2, j2) →
      sampleValueLB t ≤ p.value := by
  intro t
  induction t with
  | leaf v i s =>
    intro k j p k2 j2 hok
    match v, hok with
    | some lv, hok =>
      simp only [generateFeatureValue, Except.ok.injEq, Prod.mk.injEq] at hok
      obtain ⟨hp, -⟩ := hok
      subst hp
      simp only [sampleValueLB]
      by_cases hc : lv.meanValue ≠ 0 ∨ lv.stdValue ≠ 1
      · rw [if_pos hc, if_neg (by tauto)]
        exact le_trans (le_max_left _ _) (le_of_eq rfl)
      · rw [if_neg hc, if_pos (by tauto)]
        have h0 : (0 : ℝ) ≤ unif (k + 1) * 100 := mul_nonneg (hu (k + 1)) (by norm_num)
        exact h0
  | internal f th v i s l r ihl ihr =>
    intro k j p k2 j2 hok
    match v, hok with
    | some lv, hok =>
      simp only [sampleValueLB]
      match f, hok with
      | .date, hok =>
        simp only [generateFeatureValue] at hok
        split at hok
        · exact le_trans (min_le_left _ _) (ihl _ _ _ _ _ hok)
        · exact le_trans (min_le_right _ _) (ihr _ _ _ _ _ hok)
      | .value, hok =>
        simp only [generateFeatureValue] at hok
        split at hok
        · exact le_trans (min_le_left _ _) (ihl _ _ _ _ _ hok)
        · exact le_trans (min_le_right _ _) (ihr _ _ _ _ _ hok)
      | .category, hok =>
        simp only [generateFeatureValue] at hok
        split at hok
        · exact le_trans (min_le_left _ _) (ihl _ _ _ _ _ hok)
        · exact le_trans (min_le_right _ _) (ihr _ _ _ _ _ hok)

/-- Witness for C3 (amended): a concrete default-statistics leaf sampled
with the all-zeros stream. -/
theorem claim_C3_value_lower_bound_witness :
    (∀ n : ℕ, 0 ≤ (fun _ : ℕ => (0 : ℝ)) n) ∧
    sampleValueLB (.leaf (some ⟨["A"], [("A", 1)], 0, 1, (0, 0)⟩) none none) ≤
      (⟨0, 0, "A"⟩ : DataPoint).value := by
  have hok : generateFeatureValue (fun _ => 0) (fun _ => 0)
      (.leaf (some ⟨["A"], [("A", 1)], 0, 1, (0, 0)⟩) none none) 0 0 =
      .ok (⟨0, 0, "A"⟩, 3, 0) := by
    unfold generateFeatureValue
    norm_num [pickCategory]
  exact ⟨fun _ => le_rfl,
    claim_C3_value_lower_bound (fun _ => 0) (fun _ => 0) (fun _ => le_rfl) _ 0 0 _ 3 0 hok⟩

/-- The value `1` passes `isValidNumber`. -/
theorem isValidNumber_one : isValidNumber 1 = true := by
  simp only [isValidNumber, maxSafeInteger, decide_eq_true_eq]
  norm_num [abs_of_nonneg]

/-- `Number.MAX_SAFE_INTEGER` itself fails the strict `isValidNumber`
bound. -/
theorem isValidNumber_maxSafe : isValidNumber maxSafeInteger = false := by
  simp only [isValidNumber, maxSafeInteger, decide_eq_false_iff_not]
  rw [abs_of_nonneg (by norm_num)]
  exact lt_irrefl _

/-- Leaf statistics of the single valid record `⟨0, 1, "A"⟩`: median `1`,
fallback spread `1`, date range `[0, 0]`, category table `[("A", 1)]`. -/
theorem createLeafNode_unitRecord : createLeafNode 0 [⟨0, 1, "A"⟩] =
    .leaf (some ⟨["A"], [("A", 1)], 1, 1, (0, 0)⟩) (some 0) (some 1) := by
  have hmed : d3median [(1 : ℝ)] = some 1 := by
    unfold d3median d3quantile
    rw [if_neg (by simp), if_pos (Or.inr (by simp))]
    rfl
  have hdev : d3deviation [(1 : ℝ)] = none := by
    unfold d3deviation d3variance
    rw [if_pos (by simp)]
    rfl
  unfold createLeafNode
  norm_num [handleMissingValues, List.filter_cons, isValidNumber_one, hmed, hdev, dedupFirst,
    jsOrNum_some, jsOrNum_none, listMin, listMax, calculateMSE, d3mean]

/-- On the single record `⟨0, 1, "A"⟩` the builder stops immediately (one
record is below the minimum of three samples to split). -/
theorem buildDecisionTree_unitRecord :
    buildDecisionTree 0 [⟨0, 1, "A"⟩] 0 6 3 (5 / 1000) .all =
      createLeafNode 0 [⟨0, 1, "A"⟩] := by
  rw [buildDecisionTree]
  rw [if_pos (Or.inr (by norm_num))]

/-- Leaf statistics over the single record whose value
`Number.MAX_SAFE_INTEGER` fails validity: no valid value remains, so the
fallback statistics `(mean 0, spread 1)` and the `[now, now + 1 day]` date
range are stored. -/
theorem createLeafNode_invalidRecord :
    createLeafNode (10 ^ 12) [⟨0, maxSafeInteger, "A"⟩] =
      .leaf (some ⟨["A"], [("A", 1)], 0, 1, (10 ^ 12, 10 ^ 12 + 86400000)⟩)
        (some 0) (some 1) := by
  unfold createLeafNode
  norm_num [handleMissingValues, List.filter_cons, isValidNumber_maxSafe, dedupFirst, dayMs]

/-- On the single invalid-valued record the builder also stops
immediately. -/
theorem buildDecisionTree_invalidRecord :
    buildDecisionTree (10 ^ 12) [⟨0, maxSafeInteger, "A"⟩] 0 6 3 (5 / 1000) .all =
      createLeafNode (10 ^ 12) [⟨0, maxSafeInteger, "A"⟩] := by
  rw [buildDecisionTree]
  rw [if_pos (Or.inr (by norm_num))]

/-- The Box–Muller draw used by the counterexample: `u = exp(-9/2)` and a
second draw of `1/2` give `z = √9 · cos π = -3`. -/
theorem boxMuller_at_counterexample :
    Real.sqrt (-2 * Real.log (Real.exp (-(9 / 2)))) *
      Real.cos (2 * Real.pi * (1 / 2)) = -3 := by
  rw [Real.log_exp, show -2 * -((9 : ℝ) / 2) = 9 by norm_num,
    show (2 : ℝ) * Real.pi * (1 / 2) = Real.pi by ring, Real.cos_pi,
    show (9 : ℝ) = 3 ^ 2 by norm_num, Real.sqrt_sq (by norm_num)]
  ring

/-- Counterexample to C3 as stated: the input `[⟨0, 1, "A"⟩]` has only
non-negative values, every random draw used lies in `[0, 1)`, yet the
generated record's value is `-2 < 0` — the sampler clamps to
`[mean - 3·spread, mean + 3·spread] = [-2, 4]` without any non-negativity
constraint. -/
theorem claim_C3_counterexample :
    (∀ d ∈ ([⟨0, 1, "A"⟩] : List DataPoint), 0 ≤ d.value) ∧
    (∀ n : ℕ, 0 ≤ (fun m : ℕ => if m = 1 then Real.exp (-(9 / 2)) else if m = 2 then (1 : ℝ) / 2 else 0) n ∧
      (fun m : ℕ => if m = 1 then Real.exp (-(9 / 2)) else if m = 2 then (1 : ℝ) / 2 else 0) n < 1) ∧
    ∃ p : DataPoint,
      generateSyntheticData 0
        (fun m : ℕ => if m = 1 then Real.exp (-(9 / 2)) else if m = 2 then (1 : ℝ) / 2 else 0)
        (fun _ => 0) [⟨0, 1, "A"⟩] 1 = .ok [p] ∧ p.value < 0 := by
  refine ⟨by simp, ?_, ⟨0, -2, "A"⟩, ?_, by norm_num⟩
  · intro n
    by_cases h1 : n = 1
    · simp only [h1, if_pos rfl]
      constructor
      · exact (Real.exp_pos _).le
      · exact Real.exp_lt_one_iff.mpr (by norm_num)
    · by_cases h2 : n = 2
      · norm_num [h1, h2]
      · norm_num [h1, h2]
  · have hz9 : Real.sqrt (9 : ℝ) * Real.cos (2 * Real.pi * (1 / 2)) = -3 := by
      rw [show (2 : ℝ) * Real.pi * (1 / 2) = Real.pi by ring, Real.cos_pi,
        show (9 : ℝ) = 3 ^ 2 by norm_num, Real.sqrt_sq (by norm_num)]
      ring
    have hgfv : generateFeatureValue
        (fun m : ℕ => if m = 1 then Real.exp (-(9 / 2)) else if m = 2 then (1 : ℝ) / 2 else 0)
        (fun _ => 0)
        (.leaf (some ⟨["A"], [("A", 1)], 1, 1, (0, 0)⟩) (some 0) (some 1)) 0 0 =
        .ok (⟨0, -2, "A"⟩, 4, 0) := by
      unfold generateFeatureValue
      rw [if_pos (Or.inl (by norm_num))]
      norm_num [pickCategory, hz9]
    show sampleMany _ _ (buildDecisionTree 0 [⟨0, 1, "A"⟩] 0 6 3 (5 / 1000) .all) (1 : ℤ).toNat 0 0 = _
    rw [buildDecisionTree_unitRecord, createLeafNode_unitRecord]
    rw [show ((1 : ℤ).toNat) = 1 from rfl]
    simp only [sampleMany, hgfv]

/-- A left fold with `min` never exceeds its initial value. -/
theorem foldl_min_le_init (xs : List ℝ) : ∀ a : ℝ, xs.foldl min a ≤ a := by
  induction xs with
  | nil => intro a; simp
  | cons x xs ih => intro a; exact le_trans (ih (min a x)) (min_le_left a x)

/-- A left fold with `min` never exceeds any member of the list. -/
theorem foldl_min_le_mem (xs : List ℝ) : ∀ (a x : ℝ), x ∈ xs → xs.foldl min a ≤ x := by
  induction xs with
  | nil => intro a x hx; exact absurd hx (List.not_mem_nil x)
  | cons y ys ih =>
    intro a x hx
    rcases List.mem_cons.mp hx with rfl | hx2
    · exact le_trans (foldl_min_le_init ys (min a x)) (min_le_right a x)
    · exact ih (min a y) x hx2

/-- A lower bound of the initial value and all members bounds the fold. -/
theorem le_foldl_min (xs : List ℝ) : ∀ (a b : ℝ), b ≤ a → (∀ x ∈ xs, b ≤ x) →
    b ≤ xs.foldl min a := by
  induction xs with
  | nil => intro a b hb _; simpa using hb
  | cons x xs ih =>
    intro a b hb h
    exact ih (min a x) b (le_min hb (h x (by simp))) (fun y hy => h y (by simp [hy]))

/-- A left fold with `max` is at least its initial value. -/
theorem init_le_foldl_max (xs : List ℝ) : ∀ a : ℝ, a ≤ xs.foldl max a := by
  induction xs with
  | nil => intro a; simp
  | cons x xs ih => intro a; exact le_trans (le_max_left a x) (ih (max a x))

/-- A left fold with `max` is at least any member of the list. -/
theorem mem_le_foldl_max (xs : List ℝ) : ∀ (a x : ℝ), x ∈ xs → x ≤ xs.foldl max a := by
  induction xs with
  | nil => intro a x hx; exact absurd hx (List.not_mem_nil x)
  | cons y ys ih =>
    intro a x hx
    rcases List.mem_cons.mp hx with rfl | hx2
    · exact le_trans (le_max_right a x) (init_le_foldl_max ys (max a x))
    · exact ih (max a y) x hx2

/-- An upper bound of the initial value and all members bounds the fold. -/
theorem foldl_max_le (xs : List ℝ) : ∀ (a b : ℝ), a ≤ b → (∀ x ∈ xs, x ≤ b) →
    xs.foldl max a ≤ b := by
  induction xs with
  | nil => intro a b hb _; simpa using hb
  | cons x xs ih =>
    intro a b hb h
    exact ih (max a x) b (max_le hb (h x (by simp))) (fun y hy => h y (by simp [hy]))

/-- `listMin` is a lower bound of the list. -/
theorem listMin_le_mem (l : List ℝ) (x : ℝ) (hx : x ∈ l) : listMin l ≤ x := by
  cases l with
  | nil => exact absurd hx (List.not_mem_nil x)
  | cons y ys =>
    rcases List.mem_cons.mp hx with rfl | hx2
    · exact foldl_min_le_init ys x
    · exact foldl_min_le_mem ys y x hx2

/-- `listMax` is an upper bound of the list. -/
theorem mem_le_listMax (l : List ℝ) (x : ℝ) (hx : x ∈ l) : x ≤ listMax l := by
  cases l with
  | nil => exact absurd hx (List.not_mem_nil x)
  | cons y ys =>
    rcases List.mem_cons.mp hx with rfl | hx2
    · exact init_le_foldl_max ys x
    · exact mem_le_foldl_max ys y x hx2

/-- Any lower bound of a nonempty list bounds `listMin`. -/
theorem le_listMin (l : List ℝ) (b : ℝ) (h : ∀ x ∈ l, b ≤ x) (hne : l ≠ []) :
    b ≤ listMin l := by
  cases l with
  | nil => exact absurd rfl hne
  | cons y ys =>
    exact le_foldl_min ys y b (h y (by simp)) (fun x hx => h x (by simp [hx]))

/-- Any upper bound of a nonempty list bounds `listMax`. -/
theorem listMax_le (l : List ℝ) (b : ℝ) (h : ∀ x ∈ l, x ≤ b) (hne : l ≠ []) :
    listMax l ≤ b := by
  cases l with
  | nil => exact absurd rfl hne
  | cons y ys =>
    exact foldl_max_le ys y b (h y (by simp)) (fun x hx => h x (by simp [hx]))

/-- The minimum of a nonempty list never exceeds its maximum. -/
theorem listMin_le_listMax (l : List ℝ) (hne : l ≠ []) : listMin l ≤ listMax l := by
  cases l with
  | nil => exact absurd rfl hne
  | cons y ys =>
    exact le_trans (foldl_min_le_init ys y) (init_le_foldl_max ys y)

/-- Every node's stored `dateRange` is ordered and contained in `[lo, hi]`,
at every level of the tree. -/
def DateRangeOK (lo hi : ℝ) : TreeNode → Prop
  | .leaf v _ _ =>
    ∀ lv ∈ v, lo ≤ lv.dateRange.1 ∧ lv.dateRange.1 ≤ lv.dateRange.2 ∧ lv.dateRange.2 ≤ hi
  | .internal _ _ v _ _ l r =>
    (∀ lv ∈ v, lo ≤ lv.dateRange.1 ∧ lv.dateRange.1 ≤ lv.dateRange.2 ∧ lv.dateRange.2 ≤ hi) ∧
    DateRangeOK lo hi l ∧ DateRangeOK lo hi r

/-- Pruning preserves the date-range invariant. -/
theorem pruneTree_dateRangeOK (lo hi alpha : ℝ) :
    ∀ t : TreeNode, DateRangeOK lo hi t → DateRangeOK lo hi (pruneTree t alpha) := by
  intro t
  induction t with
  | leaf v i s => intro h; simpa [pruneTree] using h
  | internal f th v i s l r ihl ihr =>
    intro h
    obtain ⟨hv, hl, hr⟩ := h
    simp only [pruneTree]
    split
    · exact hv
    · exact ⟨hv, ihl hl, ihr hr⟩

/-- For a nonempty record set whose values are all valid, the leaf
statistics store a `dateRange` equal to the ordered span of the records'
timestamps, hence inside any interval containing them. -/
theorem createLeafNode_value_bound (now lo hi : ℝ) (data : List DataPoint)
    (hne : data ≠ []) (hvalid : ∀ d ∈ data, isValidNumber d.value = true)
    (hrange : ∀ d ∈ data, lo ≤ d.date ∧ d.date ≤ hi) :
    ∀ lv ∈ (createLeafNode now data).valueOf,
      lo ≤ lv.dateRange.1 ∧ lv.dateRange.1 ≤ lv.dateRange.2 ∧ lv.dateRange.2 ≤ hi := by
  intro lv hlv
  have hvals : ((handleMissingValues data).map (·.value)).filter isValidNumber =
      data.map (·.value) := by
    simp only [handleMissingValues]
    apply List.filter_eq_self.mpr
    intro v hv
    obtain ⟨d, hd, rfl⟩ := List.mem_map.mp hv
    exact hvalid d hd
  have hvne : data.map (·.value) ≠ [] := by
    intro hc
    exact hne (List.map_eq_nil_iff.mp hc)
  have hdne : (handleMissingValues data).map (·.date) ≠ [] := by
    simp only [handleMissingValues]
    intro hc
    exact hne (List.map_eq_nil_iff.mp hc)
  simp only [createLeafNode, TreeNode.valueOf, Option.mem_def, Option.some.injEq] at hlv
  subst hlv
  simp only [hvals]
  rw [if_pos hvne, if_pos hdne]
  have hmem : ∀ x ∈ (handleMissingValues data).map (·.date), lo ≤ x ∧ x ≤ hi := by
    intro x hx
    simp only [handleMissingValues] at hx
    obtain ⟨d, hd, rfl⟩ := List.mem_map.mp hx
    exact hrange d hd
  refine ⟨le_listMin _ lo (fun x hx => (hmem x hx).1) hdne, ?_, ?_⟩
  · exact listMin_le_listMax _ hdne
  · exact listMax_le _ hi (fun x hx => (hmem x hx).2) hdne

/-- Records in the left partition come from the data. -/
theorem splitLeftData_subset (data : List DataPoint) (bs : Option SplitChoice) :
    ∀ d ∈ splitLeftData data bs, d ∈ data := by
  intro d hd
  match bs with
  | none => exact List.mem_of_mem_filter hd
  | some ⟨.date, th, sc⟩ => exact List.mem_of_mem_filter hd
  | some ⟨.value, th, sc⟩ => exact List.mem_of_mem_filter hd
  | some ⟨.category, th, sc⟩ => exact List.mem_of_mem_filter hd

/-- Records in the right partition come from the data. -/
theorem splitRightData_subset (data : List DataPoint) (bs : Option SplitChoice) :
    ∀ d ∈ splitRightData data bs, d ∈ data := by
  intro d hd
  match bs with
  | none => exact List.mem_of_mem_filter hd
  | some ⟨.date, th, sc⟩ => exact List.mem_of_mem_filter hd
  | some ⟨.value, th, sc⟩ => exact List.mem_of_mem_filter hd
  | some ⟨.category, th, sc⟩ => exact List.mem_of_mem_filter hd

/-- The builder preserves the date-range invariant: every node of the tree
built from a nonempty all-valid record set with timestamps in `[lo, hi]`
stores a `dateRange` inside `[lo, hi]`. -/
theorem buildDecisionTree_dateRangeOK (now lo hi : ℝ) (data : List DataPoint)
    (depth maxDepth minSamplesSplit : ℕ) (alpha : ℝ) (tf : TargetFeature) :
    data ≠ [] → (∀ d ∈ data, isValidNumber d.value = true) →
    (∀ d ∈ data, lo ≤ d.date ∧ d.date ≤ hi) →
    DateRangeOK lo hi (buildDecisionTree now data depth maxDepth minSamplesSplit alpha tf) := by
  induction data, depth, maxDepth, minSamplesSplit, alpha, tf
    using buildDecisionTree.induct now with
  | case1 data depth maxDepth minSamplesSplit alpha tf hstop =>
    intro hne hvalid hrange
    rw [buildDecisionTree]
    simp only [if_pos hstop]
    exact createLeafNode_value_bound now lo hi data hne hvalid hrange
  | case2 data depth maxDepth minSamplesSplit alpha tf leafNode hstop
      bestSplit leftData rightData hguard =>
    intro hne hvalid hrange
    rw [buildDecisionTree]
    simp only [if_neg hstop, dif_pos hguard]
    exact createLeafNode_value_bound now lo hi data hne hvalid hrange
  | case3 data depth maxDepth minSamplesSplit alpha tf leafNode hstop
      bestSplit leftData rightData hguard hguard2 hnone =>
    intro hne hvalid hrange
    rw [buildDecisionTree]
    simp only [if_neg hstop, dif_neg hguard]
    split
    · exact createLeafNode_value_bound now lo hi data hne hvalid hrange
    · next b2 hx heq hh => exact Option.noConfusion (hnone.symm.trans heq)
  | case4 data depth maxDepth minSamplesSplit alpha tf leafNode hstop
      bestSplit leftData rightData hguard b hguard2 hsome ihl ihr =>
    intro hne hvalid hrange
    rw [buildDecisionTree]
    simp only [if_neg hstop, dif_neg hguard]
    split
    · next hx heq hh => exact Option.noConfusion (hsome.symm.trans heq)
    · next b2 hx heq hh =>
      have hlne : splitLeftData data (chooseBestSplit data tf) ≠ [] := by
        intro hc
        have h0 : (splitLeftData data (chooseBestSplit data tf)).length = 0 := by
          rw [hc]
          rfl
        exact hguard (Or.inl h0)
      have hrne : splitRightData data (chooseBestSplit data tf) ≠ [] := by
        intro hc
        have h0 : (splitRightData data (chooseBestSplit data tf)).length = 0 := by
          rw [hc]
          rfl
        exact hguard (Or.inr (Or.inl h0))
      refine pruneTree_dateRangeOK lo hi alpha _
        ⟨createLeafNode_value_bound now lo hi data hne hvalid hrange, ?_, ?_⟩
      · exact ihl hlne
          (fun d hd => hvalid d (splitLeftData_subset data (chooseBestSplit data tf) d hd))
          (fun d hd => hrange d (splitLeftData_subset data (chooseBestSplit data tf) d hd))
      · exact ihr hrne
          (fun d hd => hvalid d (splitRightData_subset data (chooseBestSplit data tf) d hd))
          (fun d hd => hrange d (splitRightData_subset data (chooseBestSplit data tf) d hd))

/-- Sampling a tree whose nodes all satisfy the date-range invariant, with
uniform draws in `[0, 1)`, produces a timestamp in `[lo, hi]`. -/
theorem generateFeatureValue_date_bound (unif nrm : ℕ → ℝ) (lo hi : ℝ)
    (hu : ∀ n, 0 ≤ unif n ∧ unif n < 1) :
    ∀ (t : TreeNode), DateRangeOK lo hi t → ∀ (k j : ℕ) (p : DataPoint) (k2 j2 : ℕ),
      generateFeatureValue unif nrm t k j = .ok (p, k2, j2) →
      lo ≤ p.date ∧ p.date ≤ hi := by
  intro t
  induction t with
  | leaf v i s =>
    intro hdr k j p k2 j2 hok
    match v, hdr, hok with
    | some lv, hdr, hok =>
      obtain ⟨h1, h12, h2⟩ := hdr lv rfl
      simp only [generateFeatureValue, Except.ok.injEq, Prod.mk.injEq] at hok
      obtain ⟨hp, -⟩ := hok
      subst hp
      constructor
      · have := mul_nonneg (hu k).1 (by linarith : (0 : ℝ) ≤ lv.dateRange.2 - lv.dateRange.1)
        show lo ≤ lv.dateRange.1 + unif k * (lv.dateRange.2 - lv.dateRange.1)
        linarith
      · have := mul_le_of_le_one_left
          (by linarith : (0 : ℝ) ≤ lv.dateRange.2 - lv.dateRange.1) (hu k).2.le
        show lv.dateRange.1 + unif k * (lv.dateRange.2 - lv.dateRange.1) ≤ hi
        linarith
  | internal f th v i s l r ihl ihr =>
    intro hdr k j p k2 j2 hok
    match v, hdr, hok with
    | some lv, hdr, hok =>
      obtain ⟨-, hl, hr⟩ := hdr
      match f, hok with
      | .date, hok =>
        simp only [generateFeatureValue] at hok
        split at hok
        · exact ihl hl _ _ _ _ _ hok
        · exact ihr hr _ _ _ _ _ hok
      | .value, hok =>
        simp only [generateFeatureValue] at hok
        split at hok
        · exact ihl hl _ _ _ _ _ hok
        · exact ihr hr _ _ _ _ _ hok
      | .category, hok =>
        simp only [generateFeatureValue] at hok
        split at hok
        · exact ihl hl _ _ _ _ _ hok
        · exact ihr hr _ _ _ _ _ hok

/-- C4 (amended): for a nonempty record set in which every value passes
`isValidNumber`, and uniform draws in `[0, 1)`, every record produced by the
sampler on the built tree has its timestamp inside
`[min(real.timestamp), max(real.timestamp)]`.  Without the validity
hypothesis the claim fails — a leaf whose values are all invalid falls back
to a `[now, now + 1 day]` date range (see the counterexample). -/
theorem claim_C4_timestamp_range (now : ℝ) (unif nrm : ℕ → ℝ) (data : List DataPoint)
    (depth maxDepth minSamplesSplit : ℕ) (alpha : ℝ) (tf : TargetFeature) (k j : ℕ)
    (p : DataPoint) (k2 j2 : ℕ)
    (hne : data ≠ []) (hvalid : ∀ d ∈ data, isValidNumber d.value = true)
    (hu : ∀ n, 0 ≤ unif n ∧ unif n < 1)
    (hok : generateFeatureValue unif nrm
      (buildDecisionTree now data depth maxDepth minSamplesSplit alpha tf) k j =
        .ok (p, k2, j2)) :
    listMin (data.map (·.date)) ≤ p.date ∧ p.date ≤ listMax (data.map (·.date)) := by
  refine generateFeatureValue_date_bound unif nrm _ _ hu _ ?_ k j p k2 j2 hok
  refine buildDecisionTree_dateRangeOK now _ _ data depth maxDepth minSamplesSplit alpha tf
    hne hvalid ?_
  intro d hd
  exact ⟨listMin_le_mem _ _ (List.mem_map_of_mem _ hd),
    mem_le_listMax _ _ (List.mem_map_of_mem _ hd)⟩

/-- Witness for C4 (amended) at the single-record input `⟨0, 1, "A"⟩` with
the all-zeros streams. -/
theorem claim_C4_timestamp_range_witness :
    listMin (([⟨0, 1, "A"⟩] : List DataPoint).map (·.date)) ≤ (⟨0, 1, "A"⟩ : DataPoint).date ∧
    (⟨0, 1, "A"⟩ : DataPoint).date ≤ listMax (([⟨0, 1, "A"⟩] : List DataPoint).map (·.date)) := by
  have hgfv : generateFeatureValue (fun _ => 0) (fun _ => 0)
      (.leaf (some ⟨["A"], [("A", 1)], 1, 1, (0, 0)⟩) (some 0) (some 1)) 0 0 =
      .ok (⟨0, 1, "A"⟩, 4, 0) := by
    unfold generateFeatureValue
    rw [if_pos (Or.inl (by norm_num))]
    norm_num [pickCategory, Real.log_zero, Real.sqrt_zero, Real.cos_zero]
  have hok : generateFeatureValue (fun _ => 0) (fun _ => 0)
      (buildDecisionTree 0 [⟨0, 1, "A"⟩] 0 6 3 (5 / 1000) .all) 0 0 =
      .ok (⟨0, 1, "A"⟩, 4, 0) := by
    rw [buildDecisionTree_unitRecord, createLeafNode_unitRecord]
    exact hgfv
  exact claim_C4_timestamp_range 0 (fun _ => 0) (fun _ => 0) [⟨0, 1, "A"⟩] 0 6 3 (5 / 1000)
    .all 0 0 ⟨0, 1, "A"⟩ 4 0 (by simp)
    (by
      intro d hd
      rw [List.mem_singleton] at hd
      subst hd
      exact isValidNumber_one)
    (fun n => ⟨le_rfl, by norm_num⟩) hok

/-- Counterexample to C4 as stated: the single input record has timestamp
`0` but its value `Number.MAX_SAFE_INTEGER` fails `isValidNumber`, so the
leaf falls back to the `[now, now + 1 day]` date range; with the current
time at `10^12` the generated record's timestamp is `10^12`, far outside
`[min(real.timestamp), max(real.timestamp)] = [0, 0]`.  All uniform draws
used lie in `[0, 1)`. -/
theorem claim_C4_counterexample :
    (∀ n : ℕ, 0 ≤ ((fun _ : ℕ => (0 : ℝ)) n) ∧ ((fun _ : ℕ => (0 : ℝ)) n) < 1) ∧
    generateSyntheticData (10 ^ 12) (fun _ => 0) (fun _ => 0) [⟨0, maxSafeInteger, "A"⟩] 1 =
      .ok [⟨10 ^ 12, 0, "A"⟩] ∧
    listMax (([⟨0, maxSafeInteger, "A"⟩] : List DataPoint).map (·.date)) <
      (⟨(10 : ℝ) ^ 12, 0, "A"⟩ : DataPoint).date := by
  refine ⟨fun n => ⟨le_rfl, by norm_num⟩, ?_, by norm_num [listMax]⟩
  have hgfv : generateFeatureValue (fun _ => 0) (fun _ => 0)
      (.leaf (some ⟨["A"], [("A", 1)], 0, 1, (10 ^ 12, 10 ^ 12 + 86400000)⟩)
        (some 0) (some 1)) 0 0 =
      .ok (⟨10 ^ 12, 0, "A"⟩, 3, 0) := by
    unfold generateFeatureValue
    rw [if_neg (by norm_num)]
    norm_num [pickCategory]
  show sampleMany _ _
    (buildDecisionTree (10 ^ 12) [⟨0, maxSafeInteger, "A"⟩] 0 6 3 (5 / 1000) .all)
    (1 : ℤ).toNat 0 0 = _
  rw [buildDecisionTree_invalidRecord, createLeafNode_invalidRecord,
    show ((1 : ℤ).toNat) = 1 from rfl]
  simp only [sampleMany, hgfv]

end Cart
